import Mathlib

/-!
Shallow embedding of the agent tool-orchestration loop of the Platinium
Research repository (file `services/agent/orchestrator.ts`, class
`AgentOrchestrator`), together with its retry helper `_retryRequest`.

The embedding follows the JavaScript source line by line:

* tool arguments are modelled as their JSON serialization (an opaque
  `String`), since the source only ever uses `JSON.stringify(toolArgs)`
  to build cache keys and passes the arguments through unchanged;
* the hosted model is an oracle `Nat -> Except ApiError ModelResponse`
  giving, for each outbound request (in request order), the outcome that
  the retry-wrapped `chat.sendMessage` call eventually produces;
* tool executors are a parameter
  `exec : AgentContext -> String -> String -> Except String ToolOutput`
  (context, tool name, serialized args); `Except.error msg` models a
  thrown exception with message `msg`;
* callback invocations (`onToolStart`, `onToolResult`, `onDraftUpdate`,
  `onCanvasUpdate`, `onTablesUpdate`) and entries into a tool executor
  are recorded as an event trace, and the function responses pushed back
  to the model are recorded as `frSent` events;
* the `Promise.all` fan-out over the function calls of one model
  response is modelled by its microtask schedule: every async callback
  first runs synchronously up to its first `await` (phase 1, in call
  order), then the suspended continuations resume (phase 2, in call
  order, since the modelled executors resolve immediately).  A cache
  hit and the unknown-tool branch contain no `await`, so they complete
  entirely inside phase 1; a registry tool suspends at
  `await toolImpl.execute(...)` and its continuation (side-effect hooks,
  cache store, `onToolResult`, response push) runs in phase 2.
-/

/-! ## Small string utilities (model of JS `String.prototype.includes`) -/

/-- Does the first list occur as a leading segment of the second list. -/
def startsWithL : List Char → List Char → Bool
  | [], _ => true
  | _ :: _, [] => false
  | a :: as, b :: bs => a == b && startsWithL as bs

/-- Does the pattern occur as a contiguous sublist of the text. -/
def containsSubL (pat : List Char) : List Char → Bool
  | [] => pat.isEmpty
  | c :: rest => startsWithL pat (c :: rest) || containsSubL pat rest

/-- Model of the JavaScript expression `s.includes(pat)`. -/
def strIncludes (s pat : String) : Bool :=
  containsSubL pat.data s.data

/-- Model of the JavaScript expression `s.toLowerCase()` (ASCII letters,
which is all the keyword heuristics compare against). -/
def lowerStr (s : String) : String :=
  String.mk (s.data.map Char.toLower)

/-! ## Data model (from `services/agent/types.ts` and the orchestrator) -/

/-- The execution context snapshot (interface `AgentContext` in
`services/agent/types.ts`).  `canvasData` and `tables` are kept as opaque
strings; only presence and identity of fields matter to the orchestrator. -/
structure AgentContext where
  projectId : String := ""
  assetsFolderId : Option String := none
  draftContent : String := ""
  canvasData : Option String := none
  tables : Option String := none
  customSources : List String := []
  enabledTools : List String := []
  currentBrowserUrl : Option String := none
deriving DecidableEq

/-- The `meta` side channel of a tool output.  The orchestrator only ever
reads the fields `content`, `canvasData` and `tables` from it (for the
side-effect hooks), so those are modelled explicitly. -/
structure ToolMeta where
  content : Option String := none
  canvasData : Option String := none
  tables : Option String := none
deriving DecidableEq

/-- A tool output value `{ text, meta? }` as produced by a tool executor
(the `toolOutput` local of `sendMessage`). -/
structure ToolOutput where
  text : String
  meta : Option ToolMeta := none
deriving DecidableEq

/-- A function call issued by the model: a tool name, the JSON
serialization of its arguments, and the call id (`""` when absent). -/
structure FunctionCall where
  name : String
  args : String
  id : String := ""
deriving DecidableEq

/-- One model response: a list of function calls (possibly empty) and the
textual content (`""` when the response carries no text, mirroring
`currentResponse.text || ""`). -/
structure ModelResponse where
  functionCalls : List FunctionCall := []
  text : String := ""
deriving DecidableEq

/-- An error thrown by the model API, as inspected by `_retryRequest`
(`e?.message` and `e?.status`). -/
structure ApiError where
  message : String := ""
  status : Option String := none
deriving DecidableEq

/-- The names registered in `TOOL_REGISTRY` of
`services/agent/orchestrator.ts`, in source order. -/
def TOOL_REGISTRY_NAMES : List String :=
  ["searchWeb", "updateDraft", "deepReason", "analyzeImage",
   "generateImage", "generateCanvas", "searchYouTube", "readWebPage",
   "readProjectContext", "citeSources", "manageTables"]

/-- The constructor line
`this.tools = context.enabledTools.map(name => TOOL_REGISTRY[name]).filter(Boolean)`,
viewed on names: the enabled tools that actually exist in the registry.
This list only feeds the model configuration (declarations and prompt);
the dispatch in `sendMessage` reads `TOOL_REGISTRY` directly. -/
def resolveEnabledTools (ctx : AgentContext) : List String :=
  ctx.enabledTools.filter (fun n => TOOL_REGISTRY_NAMES.contains n)

/-! ## Intent detection (lines 139-158 of the orchestrator) -/

/-- Model of `message.map(p => p.text || "").join(" ")`: each message part
is its optional text field. -/
def joinParts : List (Option String) → String
  | [] => ""
  | [p] => p.getD ""
  | p :: ps => p.getD "" ++ " " ++ joinParts ps

/-- The required-tool heuristic of `sendMessage` (lines 143-158): keyword
matches against the lowercased user text populate `requiredTools`.  The
JavaScript `Set` iterates in insertion order, which is the order of the
four `if` blocks. -/
def requiredToolsOf (u : String) : List String :=
  (if strIncludes u "draft" || strIncludes u "write" ||
      strIncludes u "paper" || strIncludes u "report"
   then ["updateDraft"] else []) ++
  (if strIncludes u "canvas" || strIncludes u "diagram" ||
      strIncludes u "graph" || strIncludes u "map" ||
      strIncludes u "visualize"
   then ["generateCanvas"] else []) ++
  (if strIncludes u "reason" || strIncludes u "deep" ||
      strIncludes u "think" || strIncludes u "plan"
   then ["deepReason"] else []) ++
  (if (strIncludes u "create" || strIncludes u "generate") &&
      (strIncludes u "image" || strIncludes u "picture" ||
       strIncludes u "photo")
   then ["generateImage"] else [])

example : requiredToolsOf (lowerStr (joinParts [some "Write a paper"])) =
    ["updateDraft"] := by decide

example : requiredToolsOf "hello there" = [] := by decide

/-! ## Retry helper `_retryRequest` (lines 324-340) -/

/-- The quota test of `_retryRequest`:
`e?.message?.includes("429") || e?.status === "RESOURCE_EXHAUSTED"`. -/
def isQuotaError (e : ApiError) : Bool :=
  strIncludes e.message "429" || e.status == some "RESOURCE_EXHAUSTED"

/-- How one call to `_retryRequest` ends: a successful value, a rethrown
error, or the unreachable-with-positive-budget final
`throw new Error("API Request Failed after retries.")`. -/
inductive RetryOutcome (α : Type) where
  | ok (a : α)
  | thrown (e : ApiError)
  | exhausted
deriving DecidableEq

/-- Trace of one `_retryRequest` call: its outcome, the backoff waits
performed (in milliseconds, in order), and how many times the wrapped
function was invoked. -/
structure RetryTrace (α : Type) where
  outcome : RetryOutcome α
  waits : List Nat
  invocations : Nat
deriving DecidableEq

/-- The `for (let i = 0; i < retries; i++)` loop of `_retryRequest`,
with `remaining = retries - i` as structural fuel.  `fn i` is the outcome
of the `i`-th invocation of the wrapped request. -/
def retryLoop (fn : Nat → Except ApiError α) (retries : Nat) :
    Nat → Nat → RetryTrace α
  | 0, _ => ⟨.exhausted, [], 0⟩
  | remaining + 1, i =>
    match fn i with
    | .ok a => ⟨.ok a, [], 1⟩
    | .error e =>
      if isQuotaError e && decide (i < retries - 1) then
        let r := retryLoop fn retries remaining (i + 1)
        ⟨r.outcome, 2000 * 2 ^ i :: r.waits, r.invocations + 1⟩
      else
        ⟨.thrown e, [], 1⟩

/-- `_retryRequest(fn, retries)` (default budget 3). -/
def retryRequest (fn : Nat → Except ApiError α) (retries : Nat := 3) :
    RetryTrace α :=
  retryLoop fn retries retries 0

example :
    retryRequest (fun _ => (.error ⟨"429 quota", none⟩ : Except ApiError Nat)) =
      ⟨.thrown ⟨"429 quota", none⟩, [2000, 4000], 3⟩ := by decide

example :
    retryRequest (fun _ => (.error ⟨"boom", none⟩ : Except ApiError Nat)) =
      ⟨.thrown ⟨"boom", none⟩, [], 1⟩ := by decide

example :
    retryRequest (fun i => if i == 1 then .ok 7 else
      (.error ⟨"", some "RESOURCE_EXHAUSTED"⟩ : Except ApiError Nat)) =
      ⟨.ok 7, [2000], 2⟩ := by decide

/-! ## Event trace -/

/-- Observable steps of one `sendMessage` turn.

* `toolStart` is `callbacks.onToolStart(callId, toolName)` (line 198);
* `execInvoke` marks entry into `toolImpl.execute(toolArgs, ...)`
  (line 214) — one event per executor invocation;
* `toolResult` is `callbacks.onToolResult({callId, toolName, input,
  output, meta})` (lines 239-245);
* `draftUpdate`, `canvasUpdate`, `tablesUpdate` are the side-effect
  hooks of lines 217-225;
* `frSent` records one `functionResponses.push(...)` envelope
  (lines 255-261): tool name, call id, the response text, and its
  (stripped) meta field;
* `supervisorStart` is the synthetic
  `callbacks.onToolStart("supervisor-...", nextTool)` of line 294. -/
inductive Event where
  | toolStart (callId name : String)
  | execInvoke (name args : String)
  | toolResult (callId name args output : String) (meta : Option ToolMeta)
  | draftUpdate (content : String)
  | canvasUpdate (data : String)
  | tablesUpdate (tables : String)
  | frSent (name callId text : String) (meta : Option ToolMeta)
  | supervisorStart (name : String)
deriving DecidableEq

/-! ## One batch of function calls (lines 176-262) -/

/-- `call.id || generated`: the source generates a fresh id from the
timestamp and a random suffix when the model supplied none; the model of
that fallback is a deterministic placeholder. -/
def resolveCallId (c : FunctionCall) : String :=
  if c.id == "" then c.name ++ "-autoid" else c.id

/-- The cache key of line 187: `toolName + ":" + JSON.stringify(toolArgs)`. -/
def cacheKeyOf (name args : String) : String :=
  name ++ ":" ++ args

/-- Lookup in the turn cache (a JavaScript `Map`, modelled as an
association list with newest entry in front). -/
def lookupA (k : String) : List (String × ToolOutput) → Option ToolOutput
  | [] => none
  | (k2, v) :: rest => if k2 == k then some v else lookupA k rest

/-- `toolsExecuted.add(toolName)` (line 189): JavaScript `Set` insertion. -/
def addTool (executed : List String) (name : String) : List String :=
  if executed.contains name then executed else executed ++ [name]

/-- The synthetic output of the unknown-tool branch (line 228). -/
def unavailableOutput (name : String) : ToolOutput :=
  ⟨"Error: Tool \x27" ++ name ++ "\x27 is not available.", none⟩

/-- The catch branch of lines 230-233: a thrown executor error becomes a
textual output. -/
def execErrorOutput (msg : String) : ToolOutput :=
  ⟨"Error executing tool: " ++ msg, none⟩

/-- Lines 250-253: `const responseToSend = {...toolOutput}; if
(responseToSend.meta) delete responseToSend.meta`. -/
def stripMeta (r : ToolOutput) : ToolOutput :=
  ⟨r.text, none⟩

/-- A simple stand-in for `JSON.stringify(toolOutput)`, used only when the
output text is empty (line 243). -/
def stringifyOutput (r : ToolOutput) : String :=
  "\x7b\x22text\x22:\x22" ++ r.text ++ "\x22\x7d"

/-- `toolOutput.text || JSON.stringify(toolOutput)` (line 243). -/
def resultOutput (r : ToolOutput) : String :=
  if r.text == "" then stringifyOutput r else r.text

/-- JavaScript truthiness of an optional string field (empty string is
falsy), as used by the `meta?.content &&`-style guards of lines 217-225. -/
def truthyStr : Option String → Option String
  | some s => if s == "" then none else some s
  | none => none

/-- The side-effect hooks of lines 217-225, applied to a successful tool
output. -/
def hookEvents (name : String) (out : ToolOutput) : List Event :=
  (if name == "updateDraft" then
     match truthyStr (out.meta.bind ToolMeta.content) with
     | some c => [Event.draftUpdate c]
     | none => []
   else []) ++
  (if name == "generateCanvas" then
     match truthyStr (out.meta.bind ToolMeta.canvasData) with
     | some d => [Event.canvasUpdate d]
     | none => []
   else []) ++
  (if name == "manageTables" then
     match truthyStr (out.meta.bind ToolMeta.tables) with
     | some t => [Event.tablesUpdate t]
     | none => []
   else [])

/-- A registry tool call that has passed its synchronous prelude and is
suspended at `await toolImpl.execute(...)`; `result` is the outcome the
executor will deliver. -/
structure Pending where
  callId : String
  name : String
  args : String
  key : String
  result : Except String ToolOutput

/-- Result of the synchronous sweep over one batch of calls (phase 1). -/
structure Phase1Out where
  cache : List (String × ToolOutput)
  executed : List String
  events : List Event
  pendings : List Pending

/-- Phase 1 of `Promise.all(callsToExecute.map(async call => ...))`:
each async callback runs synchronously, in call order, up to its first
`await`.  Per call (lines 184-198): compute the call id and cache key and
add the name to `toolsExecuted`; then

* cache hit (lines 194-195): reuse the stored output; the rest of the
  callback (strip and push, lines 250-261) contains no `await`, so the
  function-response envelope is pushed already in this phase, and no
  callback fires;
* fresh registry tool: `onToolStart` fires and the executor is entered;
  the callback suspends, leaving a `Pending` for phase 2;
* fresh unknown tool (lines 227-229): `onToolStart` fires, the synthetic
  output is built, cached and reported, and the envelope is pushed — all
  synchronously in this phase. -/
def phase1 (exec : AgentContext → String → String → Except String ToolOutput)
    (ctx : AgentContext) :
    List FunctionCall → List (String × ToolOutput) → List String → Phase1Out
  | [], cache, executed => ⟨cache, executed, [], []⟩
  | c :: rest, cache, executed =>
    let callId := resolveCallId c
    let key := cacheKeyOf c.name c.args
    let executed := addTool executed c.name
    match lookupA key cache with
    | some cached =>
      let r := phase1 exec ctx rest cache executed
      ⟨r.cache, r.executed,
       Event.frSent c.name callId (stripMeta cached).text (stripMeta cached).meta
         :: r.events,
       r.pendings⟩
    | none =>
      if TOOL_REGISTRY_NAMES.contains c.name then
        let r := phase1 exec ctx rest cache executed
        ⟨r.cache, r.executed,
         Event.toolStart callId c.name :: Event.execInvoke c.name c.args
           :: r.events,
         ⟨callId, c.name, c.args, key, exec ctx c.name c.args⟩ :: r.pendings⟩
      else
        let out := unavailableOutput c.name
        let r := phase1 exec ctx rest ((key, out) :: cache) executed
        ⟨r.cache, r.executed,
         Event.toolStart callId c.name
           :: Event.toolResult callId c.name c.args (resultOutput out) out.meta
           :: Event.frSent c.name callId (stripMeta out).text (stripMeta out).meta
           :: r.events,
         r.pendings⟩

/-- Result of resuming the suspended callbacks (phase 2). -/
structure Phase2Out where
  cache : List (String × ToolOutput)
  events : List Event

/-- Phase 2: the suspended callbacks resume in call order (the modelled
executors resolve immediately, so the microtask queue preserves order).
Per pending call (lines 214-261): the awaited result is either the tool
output or, via the catch branch, a textual error output; on success the
side-effect hooks fire; the output is cached (line 236), `onToolResult`
fires (lines 239-245), and the stripped envelope is pushed. -/
def phase2 : List Pending → List (String × ToolOutput) → Phase2Out
  | [], cache => ⟨cache, []⟩
  | p :: rest, cache =>
    let out := match p.result with
      | .ok r => r
      | .error msg => execErrorOutput msg
    let hooks := match p.result with
      | .ok r => hookEvents p.name r
      | .error _ => []
    let r := phase2 rest ((p.key, out) :: cache)
    ⟨r.cache,
     hooks ++
       (Event.toolResult p.callId p.name p.args (resultOutput out) out.meta
         :: Event.frSent p.name p.callId (stripMeta out).text (stripMeta out).meta
         :: r.events)⟩

/-- Outcome of processing one batch of function calls. -/
structure BatchOut where
  cache : List (String × ToolOutput)
  executed : List String
  events : List Event

/-- Lines 176-262: process all function calls of one model response. -/
def processBatch (exec : AgentContext → String → String → Except String ToolOutput)
    (ctx : AgentContext) (cache : List (String × ToolOutput))
    (executed : List String) (calls : List FunctionCall) : BatchOut :=
  let p1 := phase1 exec ctx calls cache executed
  let p2 := phase2 p1.pendings p1.cache
  ⟨p2.cache, p1.executed, p1.events ++ p2.events⟩

/-! ## The agent loop (lines 160-321) -/

/-- How the `while` loop of `sendMessage` ends: the normal `break` of
line 309, a `break` in one of the two catch blocks (lines 270-273 and
302-305), exhaustion of the 15-iteration budget, or — for the whole call
— a rethrow of the initial `sendMessage` request of line 163, which is
not wrapped in any try/catch. -/
inductive ExitReason where
  | completed
  | requestFailed
  | budgetExhausted
  | initialThrow
deriving DecidableEq

/-- `missingTools` (line 280): required tools not yet in `toolsExecuted`. -/
def missingToolsOf (required executed : List String) : List String :=
  required.filter (fun t => !(executed.contains t))

/-- `validMissingTools` (line 283): missing tools filtered to registry
membership (`TOOL_REGISTRY[t] !== undefined`; note this does not consult
`enabledTools`). -/
def validMissingOf (required executed : List String) : List String :=
  (missingToolsOf required executed).filter
    (fun t => TOOL_REGISTRY_NAMES.contains t)

/-- Result of running the loop from a given model response onward. -/
structure LoopOut where
  lastResponse : ModelResponse
  iterations : Nat
  cache : List (String × ToolOutput)
  executed : List String
  events : List Event
  exitReason : ExitReason

/-- The `while (loopCount < MAX_LOOPS)` loop, with the remaining budget
`MAX_LOOPS - loopCount` as structural fuel.  `reqIdx` indexes the next
outbound model request in the oracle.  On a request failure the loop
breaks with `currentResponse` unchanged, exactly like the catch blocks of
lines 270-273 and 302-305. -/
def agentLoop (exec : AgentContext → String → String → Except String ToolOutput)
    (ctx : AgentContext) (required : List String)
    (oracle : Nat → Except ApiError ModelResponse) :
    Nat → Nat → ModelResponse → List (String × ToolOutput) → List String →
    LoopOut
  | 0, _, resp, cache, executed =>
    ⟨resp, 0, cache, executed, [], .budgetExhausted⟩
  | fuel + 1, reqIdx, resp, cache, executed =>
    match resp.functionCalls with
    | c :: cs =>
      let b := processBatch exec ctx cache executed (c :: cs)
      match oracle reqIdx with
      | .error _ =>
        ⟨resp, 1, b.cache, b.executed, b.events, .requestFailed⟩
      | .ok next =>
        let r := agentLoop exec ctx required oracle fuel (reqIdx + 1) next
          b.cache b.executed
        ⟨r.lastResponse, r.iterations + 1, r.cache, r.executed,
         b.events ++ r.events, r.exitReason⟩
    | [] =>
      match validMissingOf required executed with
      | [] => ⟨resp, 1, cache, executed, [], .completed⟩
      | nextTool :: _ =>
        match oracle reqIdx with
        | .error _ =>
          ⟨resp, 1, cache, executed, [Event.supervisorStart nextTool],
           .requestFailed⟩
        | .ok next =>
          let r := agentLoop exec ctx required oracle fuel (reqIdx + 1) next
            cache executed
          ⟨r.lastResponse, r.iterations + 1, r.cache, r.executed,
           Event.supervisorStart nextTool :: r.events, r.exitReason⟩

/-- `MAX_LOOPS` (line 165). -/
def MAX_LOOPS : Nat := 15

/-- Observable outcome of one `sendMessage` call.  `result` is
`Except.error e` exactly when the unguarded initial request of line 163
rethrows `e` to the caller; otherwise it is the returned string. -/
structure RunOut where
  result : Except ApiError String
  iterations : Nat
  cache : List (String × ToolOutput)
  executed : List String
  events : List Event
  exitReason : ExitReason

/-- `AgentOrchestrator.sendMessage` (lines 134-321).  `message` is the
list of user parts (each with an optional text field); `oracle n` is the
outcome of the `n`-th outbound retry-wrapped model request. -/
def sendMessage (exec : AgentContext → String → String → Except String ToolOutput)
    (ctx : AgentContext) (message : List (Option String))
    (oracle : Nat → Except ApiError ModelResponse) : RunOut :=
  let userText := lowerStr (joinParts message)
  let required := requiredToolsOf userText
  match oracle 0 with
  | .error e => ⟨.error e, 0, [], [], [], .initialThrow⟩
  | .ok r0 =>
    let lr := agentLoop exec ctx required oracle MAX_LOOPS 1 r0 [] []
    let t0 := lr.lastResponse.text
    let finalText :=
      if t0 == "" && lr.iterations != 0 then
        "I have completed the requested actions."
      else t0
    ⟨.ok finalText, lr.iterations, lr.cache, lr.executed, lr.events,
     lr.exitReason⟩

/-! ## Trace predicates -/

/-- Does the event mark an executor invocation (entry into
`toolImpl.execute`) for the given tool name and serialized arguments. -/
def isExecInvokeKey (n a : String) : Event → Bool
  | .execInvoke n2 a2 => n2 == n && a2 == a
  | _ => false

/-- Does the event mark an executor invocation for the given tool name. -/
def isExecInvokeFor (n : String) : Event → Bool
  | .execInvoke n2 _ => n2 == n
  | _ => false

/-- Does the event mark any executor invocation. -/
def isExecAny : Event → Bool
  | .execInvoke _ _ => true
  | _ => false

/-- Does the event mark any `onToolStart` call for a function call. -/
def isToolStartAny : Event → Bool
  | .toolStart _ _ => true
  | _ => false

/-- Does the event mark any `onToolResult` call. -/
def isToolResultAny : Event → Bool
  | .toolResult _ _ _ _ _ => true
  | _ => false

/-- Does the event mark an `onToolResult` call for the given call id. -/
def isToolResultForCall (cid : String) : Event → Bool
  | .toolResult cid2 _ _ _ _ => cid2 == cid
  | _ => false

/-- Does the event mark a function-response push. -/
def isFrSentAny : Event → Bool
  | .frSent _ _ _ _ => true
  | _ => false

/-- Flags a function-response push whose payload still carries a `meta`
field (the stripping invariant says none exists). -/
def isBadFrSent : Event → Bool
  | .frSent _ _ _ m => !(m == none)
  | _ => false

/-- Flags an `onToolResult` call for tool name `n` whose payload is not
the synthetic unavailable-tool result. -/
def isBadUnknownResult (n : String) : Event → Bool
  | .toolResult _ n2 _ o m =>
    n2 == n && !(o == (unavailableOutput n).text && m == none)
  | _ => false

/-- Was the event produced by one of the side-effect hooks. -/
def isHookEvent : Event → Bool
  | .draftUpdate _ => true
  | .canvasUpdate _ => true
  | .tablesUpdate _ => true
  | _ => false

/-- Does the function call carry exactly this (name, serialized args)
pair. -/
def matchesPair (n a : String) (c : FunctionCall) : Bool :=
  c.name == n && c.args == a

/-- A supervisor-forced continuation. -/
def isSupervisorAny : Event → Bool
  | .supervisorStart _ => true
  | _ => false

/-! ## Basic lemmas about the pieces -/

theorem lookupA_cons (k k2 : String) (v : ToolOutput)
    (c : List (String × ToolOutput)) :
    lookupA k ((k2, v) :: c) = if k2 == k then some v else lookupA k c := rfl

theorem lookupA_cons_of_none {k k2 : String} {v : ToolOutput}
    {c : List (String × ToolOutput)} (h : lookupA k ((k2, v) :: c) = none) :
    lookupA k c = none := by
  rw [lookupA_cons] at h
  split at h
  · exact absurd h (by simp)
  · exact h

theorem lookupA_cons_preserve {k k2 : String} {v v2 : ToolOutput}
    {c : List (String × ToolOutput)} (h : lookupA k c = some v)
    (hne : lookupA k2 c = none) :
    lookupA k ((k2, v2) :: c) = some v := by
  rw [lookupA_cons]
  split
  · next heq =>
    rw [show k2 = k from by simpa using heq] at hne
    rw [h] at hne
    exact absurd hne (by simp)
  · exact h

theorem addTool_contains_self (executed : List String) (n : String) :
    (addTool executed n).contains n = true := by
  unfold addTool
  split
  · assumption
  · simp

theorem addTool_mono {executed : List String} {x : String}
    (h : executed.contains x = true) (n : String) :
    (addTool executed n).contains x = true := by
  unfold addTool
  split
  · exact h
  · rw [List.elem_iff] at h ⊢
    exact List.mem_append_left _ h

theorem hookEvents_mem {n : String} {out : ToolOutput} {e : Event}
    (h : e ∈ hookEvents n out) : isHookEvent e = true := by
  unfold hookEvents at h
  simp only [List.mem_append] at h
  rcases h with (h | h) | h <;>
    (split at h <;>
      first
        | (split at h <;> simp_all [isHookEvent])
        | simp_all)

theorem hookEvents_countP_zero (n : String) (out : ToolOutput)
    (p : Event → Bool) (hp : ∀ e, isHookEvent e = true → p e = false) :
    (hookEvents n out).countP p = 0 := by
  rw [List.countP_eq_zero]
  intro e he
  simp [hp e (hookEvents_mem he)]

/-! ## Cache behaviour of one batch -/

theorem phase1_cache_mono (exec : AgentContext → String → String → Except String ToolOutput)
    (ctx : AgentContext) :
    ∀ (calls : List FunctionCall) (cache : List (String × ToolOutput))
      (executed : List String) (k : String) (v : ToolOutput),
      lookupA k cache = some v →
      lookupA k (phase1 exec ctx calls cache executed).cache = some v := by
  intro calls
  induction calls with
  | nil =>
    intro cache executed k v h
    simpa [phase1] using h
  | cons c rest ih =>
    intro cache executed k v h
    simp only [phase1]
    cases hl : lookupA (cacheKeyOf c.name c.args) cache with
    | some cached =>
      exact ih _ _ _ _ h
    | none =>
      by_cases hr : TOOL_REGISTRY_NAMES.contains c.name = true
      · simp only [hr, if_true]
        exact ih _ _ _ _ h
      · simp only [hr, if_false]
        exact ih _ _ _ _ (lookupA_cons_preserve h hl)

theorem phase1_pendings_fresh (exec : AgentContext → String → String → Except String ToolOutput)
    (ctx : AgentContext) :
    ∀ (calls : List FunctionCall) (cache : List (String × ToolOutput))
      (executed : List String) (p : Pending),
      p ∈ (phase1 exec ctx calls cache executed).pendings →
      lookupA p.key cache = none := by
  intro calls
  induction calls with
  | nil =>
    intro cache executed p h
    simp [phase1] at h
  | cons c rest ih =>
    intro cache executed p h
    simp only [phase1] at h
    cases hl : lookupA (cacheKeyOf c.name c.args) cache with
    | some cached =>
      rw [hl] at h
      exact ih _ _ _ h
    | none =>
      rw [hl] at h
      by_cases hr : TOOL_REGISTRY_NAMES.contains c.name = true
      · simp only [hr, if_true, List.mem_cons] at h
        rcases h with h | h
        · rw [h]
          exact hl
        · exact ih _ _ _ h
      · simp only [hr, if_false] at h
        exact lookupA_cons_of_none (ih _ _ _ h)

theorem phase1_pendings_shape (exec : AgentContext → String → String → Except String ToolOutput)
    (ctx : AgentContext) :
    ∀ (calls : List FunctionCall) (cache : List (String × ToolOutput))
      (executed : List String) (p : Pending),
      p ∈ (phase1 exec ctx calls cache executed).pendings →
      TOOL_REGISTRY_NAMES.contains p.name = true ∧
        p.key = cacheKeyOf p.name p.args ∧
        p.result = exec ctx p.name p.args := by
  intro calls
  induction calls with
  | nil =>
    intro cache executed p h
    simp [phase1] at h
  | cons c rest ih =>
    intro cache executed p h
    simp only [phase1] at h
    cases hl : lookupA (cacheKeyOf c.name c.args) cache with
    | some cached =>
      rw [hl] at h
      exact ih _ _ _ h
    | none =>
      rw [hl] at h
      by_cases hr : TOOL_REGISTRY_NAMES.contains c.name = true
      · simp only [hr, if_true, List.mem_cons] at h
        rcases h with h | h
        · subst h
          exact ⟨hr, rfl, rfl⟩
        · exact ih _ _ _ h
      · simp only [hr, if_false] at h
        exact ih _ _ _ h

theorem phase2_cache_mono :
    ∀ (pend : List Pending) (cache : List (String × ToolOutput))
      (k : String) (v : ToolOutput),
      (∀ p ∈ pend, ¬(p.key = k)) →
      lookupA k cache = some v →
      lookupA k (phase2 pend cache).cache = some v := by
  intro pend
  induction pend with
  | nil =>
    intro cache k v _ h
    simpa [phase2] using h
  | cons p rest ih =>
    intro cache k v hne h
    simp only [phase2]
    apply ih _ _ _ (fun q hq => hne q (List.mem_cons_of_mem _ hq))
    rw [lookupA_cons]
    split
    · next heq =>
      exact absurd (by simpa using heq) (hne p (List.mem_cons_self _ _))
    · exact h

theorem processBatch_cache_mono
    (exec : AgentContext → String → String → Except String ToolOutput)
    (ctx : AgentContext) (cache : List (String × ToolOutput))
    (executed : List String) (calls : List FunctionCall)
    (k : String) (v : ToolOutput) (h : lookupA k cache = some v) :
    lookupA k (processBatch exec ctx cache executed calls).cache = some v := by
  unfold processBatch
  apply phase2_cache_mono
  · intro p hp heq
    have := phase1_pendings_fresh exec ctx calls cache executed p hp
    rw [heq, h] at this
    exact absurd this (by simp)
  · exact phase1_cache_mono exec ctx calls cache executed k v h

/-! ## Executor invocations of one batch -/

theorem phase2_countP_exec_zero :
    ∀ (pend : List Pending) (cache : List (String × ToolOutput)),
      ((phase2 pend cache).events).countP isExecAny = 0 := by
  intro pend
  induction pend with
  | nil =>
    intro cache
    simp [phase2]
  | cons p rest ih =>
    intro cache
    simp only [phase2]
    cases hres : p.result with
    | ok r =>
      simp only [hres, List.countP_append, List.countP_cons]
      rw [hookEvents_countP_zero _ _ _ (fun e he => by
        cases e <;> simp_all [isHookEvent, isExecAny])]
      simp [ih, isExecAny]
    | error msg =>
      simp only [hres, List.countP_append, List.countP_cons]
      simp [ih, isExecAny]

theorem countP_le_of_imp {l : List Event} {p q : Event → Bool}
    (h : ∀ e, p e = true → q e = true) : l.countP p ≤ l.countP q :=
  List.countP_mono_left (fun e _ hpe => h e hpe)

theorem isExecInvokeKey_imp_any (n a : String) (e : Event) :
    isExecInvokeKey n a e = true → isExecAny e = true := by
  cases e <;> simp [isExecInvokeKey, isExecAny]

theorem isExecInvokeFor_imp_any (n : String) (e : Event) :
    isExecInvokeFor n e = true → isExecAny e = true := by
  cases e <;> simp [isExecInvokeFor, isExecAny]

theorem phase1_countP_execKey_zero_of_cached
    (exec : AgentContext → String → String → Except String ToolOutput)
    (ctx : AgentContext) :
    ∀ (calls : List FunctionCall) (cache : List (String × ToolOutput))
      (executed : List String) (n a : String) (v : ToolOutput),
      lookupA (cacheKeyOf n a) cache = some v →
      ((phase1 exec ctx calls cache executed).events).countP
        (isExecInvokeKey n a) = 0 := by
  intro calls
  induction calls with
  | nil =>
    intro cache executed n a v h
    simp [phase1]
  | cons c rest ih =>
    intro cache executed n a v h
    simp only [phase1]
    cases hl : lookupA (cacheKeyOf c.name c.args) cache with
    | some cached =>
      simp only [List.countP_cons]
      rw [ih _ _ _ _ _ h]
      simp [isExecInvokeKey]
    | none =>
      by_cases hr : TOOL_REGISTRY_NAMES.contains c.name = true
      · rw [if_pos hr]
        simp only [List.countP_cons]
        rw [ih _ _ _ _ _ h]
        have hne : ¬(c.name = n ∧ c.args = a) := by
          rintro ⟨h1, h2⟩
          rw [h1, h2, h] at hl
          exact absurd hl (by simp)
        have hfalse : (c.name == n && c.args == a) = false := by
          by_cases hn : c.name = n
          · by_cases ha : c.args = a
            · exact absurd ⟨hn, ha⟩ hne
            · simp [ha]
          · simp [hn]
        simp [isExecInvokeKey, hfalse]
      · rw [if_neg hr]
        simp only [List.countP_cons]
        rw [ih _ _ _ _ _ (lookupA_cons_preserve h hl)]
        simp [isExecInvokeKey]

theorem matchesPair_eq_true {n a : String} {c : FunctionCall}
    (h1 : c.name = n) (h2 : c.args = a) : matchesPair n a c = true := by
  simp [matchesPair, h1, h2]

theorem matchesPair_eq_false {n a : String} {c : FunctionCall}
    (h : ¬(c.name = n ∧ c.args = a)) : matchesPair n a c = false := by
  unfold matchesPair
  by_cases hn : c.name = n
  · by_cases ha : c.args = a
    · exact absurd ⟨hn, ha⟩ h
    · simp [ha]
  · simp [hn]

theorem phase1_countP_execKey_fresh
    (exec : AgentContext → String → String → Except String ToolOutput)
    (ctx : AgentContext) :
    ∀ (calls : List FunctionCall) (cache : List (String × ToolOutput))
      (executed : List String) (n a : String),
      TOOL_REGISTRY_NAMES.contains n = true →
      (∀ c ∈ calls, cacheKeyOf c.name c.args = cacheKeyOf n a →
        c.name = n ∧ c.args = a) →
      lookupA (cacheKeyOf n a) cache = none →
      ((phase1 exec ctx calls cache executed).events).countP
        (isExecInvokeKey n a) = calls.countP (matchesPair n a) := by
  intro calls
  induction calls with
  | nil =>
    intro cache executed n a _ _ _
    simp [phase1]
  | cons c rest ih =>
    intro cache executed n a hreg huniq hnone
    have huniq' : ∀ c2 ∈ rest, cacheKeyOf c2.name c2.args = cacheKeyOf n a →
        c2.name = n ∧ c2.args = a :=
      fun c2 hc2 => huniq c2 (List.mem_cons_of_mem _ hc2)
    simp only [phase1]
    by_cases hm : c.name = n ∧ c.args = a
    · obtain ⟨hn, ha⟩ := hm
      have hkey : cacheKeyOf c.name c.args = cacheKeyOf n a := by rw [hn, ha]
      cases hl : lookupA (cacheKeyOf c.name c.args) cache with
      | some cached =>
        rw [hkey, hnone] at hl
        exact absurd hl (by simp)
      | none =>
        have hr : TOOL_REGISTRY_NAMES.contains c.name = true := by rw [hn]; exact hreg
        rw [if_pos hr]
        simp only [List.countP_cons, ih _ _ _ _ hreg huniq' hnone]
        simp [isExecInvokeKey, matchesPair, hn, ha]
    · cases hl : lookupA (cacheKeyOf c.name c.args) cache with
      | some cached =>
        simp only [List.countP_cons, ih _ _ _ _ hreg huniq' hnone]
        simp [isExecInvokeKey, matchesPair_eq_false hm]
      | none =>
        by_cases hr : TOOL_REGISTRY_NAMES.contains c.name = true
        · rw [if_pos hr]
          simp only [List.countP_cons, ih _ _ _ _ hreg huniq' hnone]
          have hfalse : (c.name == n && c.args == a) = false := by
            have := matchesPair_eq_false hm
            simpa [matchesPair] using this
          simp [isExecInvokeKey, hfalse, matchesPair_eq_false hm]
        · rw [if_neg hr]
          have hnone2 : lookupA (cacheKeyOf n a)
              ((cacheKeyOf c.name c.args, unavailableOutput c.name) :: cache) = none := by
            rw [lookupA_cons]
            split
            · next heq =>
              exact absurd (huniq c (List.mem_cons_self _ _) (by simpa using heq)) hm
            · exact hnone
          simp only [List.countP_cons, ih _ _ _ _ hreg huniq' hnone2]
          simp [isExecInvokeKey, matchesPair_eq_false hm]

/-! ## Unknown-tool behaviour of one batch -/

theorem resultOutput_unavailable (n : String) :
    resultOutput (unavailableOutput n) = (unavailableOutput n).text := by
  have h : (("Error: Tool \x27" ++ n ++ "\x27 is not available.") == "") = false := by
    rw [beq_eq_false_iff_ne]
    intro h
    have := congrArg String.data h
    simp [String.data_append] at this
  simp [resultOutput, unavailableOutput, h]

theorem resultOutput_execError (msg : String) :
    resultOutput (execErrorOutput msg) = "Error executing tool: " ++ msg := by
  have h : (("Error executing tool: " ++ msg) == "") = false := by
    rw [beq_eq_false_iff_ne]
    intro h
    have := congrArg String.data h
    simp [String.data_append] at this
  simp [resultOutput, execErrorOutput, h]

theorem phase1_countP_execFor_zero_unknown
    (exec : AgentContext → String → String → Except String ToolOutput)
    (ctx : AgentContext) :
    ∀ (calls : List FunctionCall) (cache : List (String × ToolOutput))
      (executed : List String) (n : String),
      TOOL_REGISTRY_NAMES.contains n = false →
      ((phase1 exec ctx calls cache executed).events).countP
        (isExecInvokeFor n) = 0 := by
  intro calls
  induction calls with
  | nil =>
    intro cache executed n _
    simp [phase1]
  | cons c rest ih =>
    intro cache executed n hreg
    simp only [phase1]
    cases hl : lookupA (cacheKeyOf c.name c.args) cache with
    | some cached =>
      simp only [List.countP_cons, ih _ _ _ hreg]
      simp [isExecInvokeFor]
    | none =>
      by_cases hr : TOOL_REGISTRY_NAMES.contains c.name = true
      · rw [if_pos hr]
        simp only [List.countP_cons, ih _ _ _ hreg]
        have : (c.name == n) = false := by
          by_cases hn : c.name = n
          · rw [hn] at hr
            rw [hr] at hreg
            exact absurd hreg (by simp)
          · simp [hn]
        simp [isExecInvokeFor, this]
      · rw [if_neg hr]
        simp only [List.countP_cons, ih _ _ _ hreg]
        simp [isExecInvokeFor]

theorem phase1_countP_badUnknown_zero
    (exec : AgentContext → String → String → Except String ToolOutput)
    (ctx : AgentContext) :
    ∀ (calls : List FunctionCall) (cache : List (String × ToolOutput))
      (executed : List String) (n : String),
      ((phase1 exec ctx calls cache executed).events).countP
        (isBadUnknownResult n) = 0 := by
  intro calls
  induction calls with
  | nil =>
    intro cache executed n
    simp [phase1]
  | cons c rest ih =>
    intro cache executed n
    simp only [phase1]
    cases hl : lookupA (cacheKeyOf c.name c.args) cache with
    | some cached =>
      simp only [List.countP_cons, ih _ _ _]
      simp [isBadUnknownResult]
    | none =>
      by_cases hr : TOOL_REGISTRY_NAMES.contains c.name = true
      · rw [if_pos hr]
        simp only [List.countP_cons, ih _ _ _]
        simp [isBadUnknownResult]
      · rw [if_neg hr]
        simp only [List.countP_cons, ih _ _ _]
        have hres : isBadUnknownResult n
            (Event.toolResult (resolveCallId c) c.name c.args
              (resultOutput (unavailableOutput c.name))
              (unavailableOutput c.name).meta) = false := by
          simp only [isBadUnknownResult]
          by_cases hn : c.name = n
          · subst hn
            rw [resultOutput_unavailable]
            simp [unavailableOutput]
          · simp [hn]
        rw [hres]
        simp [isBadUnknownResult]

theorem phase2_countP_badUnknown_zero (n : String) :
    ∀ (pend : List Pending) (cache : List (String × ToolOutput)),
      (∀ p ∈ pend, ¬(p.name = n)) →
      ((phase2 pend cache).events).countP (isBadUnknownResult n) = 0 := by
  intro pend
  induction pend with
  | nil =>
    intro cache _
    simp [phase2]
  | cons p rest ih =>
    intro cache hn
    have hp : ¬(p.name = n) := hn p (List.mem_cons_self _ _)
    have hrest := fun q hq => hn q (List.mem_cons_of_mem _ hq)
    simp only [phase2]
    cases hres : p.result with
    | ok r =>
      simp only [hres, List.countP_append, List.countP_cons]
      rw [hookEvents_countP_zero _ _ _ (fun e he => by
        cases e <;> simp_all [isHookEvent, isBadUnknownResult])]
      simp [ih _ hrest, isBadUnknownResult, hp]
    | error msg =>
      simp only [hres, List.countP_append, List.countP_cons]
      simp [ih _ hrest, isBadUnknownResult, hp]

/-! ## Batch-level consequences -/

theorem processBatch_countP_execKey_zero_of_cached
    (exec : AgentContext → String → String → Except String ToolOutput)
    (ctx : AgentContext) (cache : List (String × ToolOutput))
    (executed : List String) (calls : List FunctionCall)
    (n a : String) (v : ToolOutput)
    (h : lookupA (cacheKeyOf n a) cache = some v) :
    ((processBatch exec ctx cache executed calls).events).countP
      (isExecInvokeKey n a) = 0 := by
  unfold processBatch
  simp only [List.countP_append]
  rw [phase1_countP_execKey_zero_of_cached exec ctx calls cache executed n a v h]
  have h2 := phase2_countP_exec_zero
    (phase1 exec ctx calls cache executed).pendings
    (phase1 exec ctx calls cache executed).cache
  have := countP_le_of_imp (l := (phase2 (phase1 exec ctx calls cache executed).pendings
    (phase1 exec ctx calls cache executed).cache).events)
    (isExecInvokeKey_imp_any n a)
  omega

theorem processBatch_countP_execKey_fresh
    (exec : AgentContext → String → String → Except String ToolOutput)
    (ctx : AgentContext) (cache : List (String × ToolOutput))
    (executed : List String) (calls : List FunctionCall) (n a : String)
    (hreg : TOOL_REGISTRY_NAMES.contains n = true)
    (huniq : ∀ c ∈ calls, cacheKeyOf c.name c.args = cacheKeyOf n a →
      c.name = n ∧ c.args = a)
    (hnone : lookupA (cacheKeyOf n a) cache = none) :
    ((processBatch exec ctx cache executed calls).events).countP
      (isExecInvokeKey n a) = calls.countP (matchesPair n a) := by
  unfold processBatch
  simp only [List.countP_append]
  rw [phase1_countP_execKey_fresh exec ctx calls cache executed n a hreg huniq hnone]
  have h2 := phase2_countP_exec_zero
    (phase1 exec ctx calls cache executed).pendings
    (phase1 exec ctx calls cache executed).cache
  have := countP_le_of_imp (l := (phase2 (phase1 exec ctx calls cache executed).pendings
    (phase1 exec ctx calls cache executed).cache).events)
    (isExecInvokeKey_imp_any n a)
  omega

theorem processBatch_countP_execFor_zero_unknown
    (exec : AgentContext → String → String → Except String ToolOutput)
    (ctx : AgentContext) (cache : List (String × ToolOutput))
    (executed : List String) (calls : List FunctionCall) (n : String)
    (hreg : TOOL_REGISTRY_NAMES.contains n = false) :
    ((processBatch exec ctx cache executed calls).events).countP
      (isExecInvokeFor n) = 0 := by
  unfold processBatch
  simp only [List.countP_append]
  rw [phase1_countP_execFor_zero_unknown exec ctx calls cache executed n hreg]
  have h2 := phase2_countP_exec_zero
    (phase1 exec ctx calls cache executed).pendings
    (phase1 exec ctx calls cache executed).cache
  have := countP_le_of_imp (l := (phase2 (phase1 exec ctx calls cache executed).pendings
    (phase1 exec ctx calls cache executed).cache).events)
    (isExecInvokeFor_imp_any n)
  omega

theorem processBatch_countP_badUnknown_zero
    (exec : AgentContext → String → String → Except String ToolOutput)
    (ctx : AgentContext) (cache : List (String × ToolOutput))
    (executed : List String) (calls : List FunctionCall) (n : String)
    (hreg : TOOL_REGISTRY_NAMES.contains n = false) :
    ((processBatch exec ctx cache executed calls).events).countP
      (isBadUnknownResult n) = 0 := by
  unfold processBatch
  simp only [List.countP_append]
  rw [phase1_countP_badUnknown_zero exec ctx calls cache executed n]
  rw [phase2_countP_badUnknown_zero n _ _ (fun p hp hn => by
    have := (phase1_pendings_shape exec ctx calls cache executed p hp).1
    rw [hn] at this
    rw [this] at hreg
    exact absurd hreg (by simp))]

theorem phase1_countP_badFrSent_zero
    (exec : AgentContext → String → String → Except String ToolOutput)
    (ctx : AgentContext) :
    ∀ (calls : List FunctionCall) (cache : List (String × ToolOutput))
      (executed : List String),
      ((phase1 exec ctx calls cache executed).events).countP isBadFrSent = 0 := by
  intro calls
  induction calls with
  | nil =>
    intro cache executed
    simp [phase1]
  | cons c rest ih =>
    intro cache executed
    simp only [phase1]
    cases hl : lookupA (cacheKeyOf c.name c.args) cache with
    | some cached =>
      simp only [List.countP_cons, ih _ _]
      simp [isBadFrSent, stripMeta]
    | none =>
      by_cases hr : TOOL_REGISTRY_NAMES.contains c.name = true
      · rw [if_pos hr]
        simp only [List.countP_cons, ih _ _]
        simp [isBadFrSent]
      · rw [if_neg hr]
        simp only [List.countP_cons, ih _ _]
        simp [isBadFrSent, stripMeta]

theorem phase2_countP_badFrSent_zero :
    ∀ (pend : List Pending) (cache : List (String × ToolOutput)),
      ((phase2 pend cache).events).countP isBadFrSent = 0 := by
  intro pend
  induction pend with
  | nil =>
    intro cache
    simp [phase2]
  | cons p rest ih =>
    intro cache
    simp only [phase2]
    cases hres : p.result with
    | ok r =>
      simp only [hres, List.countP_append, List.countP_cons]
      rw [hookEvents_countP_zero _ _ _ (fun e he => by
        cases e <;> simp_all [isHookEvent, isBadFrSent])]
      simp [ih, isBadFrSent, stripMeta]
    | error msg =>
      simp only [hres, List.countP_append, List.countP_cons]
      simp [ih, isBadFrSent, stripMeta]

theorem processBatch_countP_badFrSent_zero
    (exec : AgentContext → String → String → Except String ToolOutput)
    (ctx : AgentContext) (cache : List (String × ToolOutput))
    (executed : List String) (calls : List FunctionCall) :
    ((processBatch exec ctx cache executed calls).events).countP
      isBadFrSent = 0 := by
  unfold processBatch
  simp only [List.countP_append]
  rw [phase1_countP_badFrSent_zero exec ctx calls cache executed,
    phase2_countP_badFrSent_zero]

/-! ## Loop-level consequences -/

theorem agentLoop_events_mem
    (exec : AgentContext → String → String → Except String ToolOutput)
    (ctx : AgentContext) (required : List String)
    (oracle : Nat → Except ApiError ModelResponse) :
    ∀ (fuel reqIdx : Nat) (resp : ModelResponse)
      (cache : List (String × ToolOutput)) (executed : List String)
      (e : Event),
      e ∈ (agentLoop exec ctx required oracle fuel reqIdx resp
        cache executed).events →
      (∃ cache2 executed2 calls,
        e ∈ (processBatch exec ctx cache2 executed2 calls).events) ∨
        ∃ t, e = Event.supervisorStart t := by
  intro fuel
  induction fuel with
  | zero =>
    intro reqIdx resp cache executed e h
    simp [agentLoop] at h
  | succ fuel ih =>
    intro reqIdx resp cache executed e h
    simp only [agentLoop] at h
    cases hfc : resp.functionCalls with
    | cons c cs =>
      rw [hfc] at h
      cases ho : oracle reqIdx with
      | error err =>
        rw [ho] at h
        exact Or.inl ⟨cache, executed, c :: cs, h⟩
      | ok next =>
        rw [ho] at h
        simp only [List.mem_append] at h
        rcases h with h | h
        · exact Or.inl ⟨cache, executed, c :: cs, h⟩
        · exact ih _ _ _ _ e h
    | nil =>
      rw [hfc] at h
      cases hvm : validMissingOf required executed with
      | nil =>
        rw [hvm] at h
        simp at h
      | cons t ts =>
        rw [hvm] at h
        cases ho : oracle reqIdx with
        | error err =>
          rw [ho] at h
          simp at h
          exact Or.inr ⟨t, h⟩
        | ok next =>
          rw [ho] at h
          simp only [List.mem_cons] at h
          rcases h with h | h
          · exact Or.inr ⟨t, h⟩
          · exact ih _ _ _ _ e h

theorem agentLoop_countP_zero
    (exec : AgentContext → String → String → Except String ToolOutput)
    (ctx : AgentContext) (required : List String)
    (oracle : Nat → Except ApiError ModelResponse) (p : Event → Bool)
    (hbatch : ∀ cache2 executed2 calls,
      ((processBatch exec ctx cache2 executed2 calls).events).countP p = 0)
    (hsup : ∀ t, p (Event.supervisorStart t) = false)
    (fuel reqIdx : Nat) (resp : ModelResponse)
    (cache : List (String × ToolOutput)) (executed : List String) :
    ((agentLoop exec ctx required oracle fuel reqIdx resp
      cache executed).events).countP p = 0 := by
  rw [List.countP_eq_zero]
  intro e he
  rcases agentLoop_events_mem exec ctx required oracle fuel reqIdx resp
      cache executed e he with ⟨cache2, executed2, calls, hmem⟩ | ⟨t, ht⟩
  · have := List.countP_eq_zero.mp (hbatch cache2 executed2 calls) e hmem
    simpa using this
  · rw [ht]
    simp [hsup t]

theorem agentLoop_iterations_le
    (exec : AgentContext → String → String → Except String ToolOutput)
    (ctx : AgentContext) (required : List String)
    (oracle : Nat → Except ApiError ModelResponse) :
    ∀ (fuel reqIdx : Nat) (resp : ModelResponse)
      (cache : List (String × ToolOutput)) (executed : List String),
      (agentLoop exec ctx required oracle fuel reqIdx resp
        cache executed).iterations ≤ fuel := by
  intro fuel
  induction fuel with
  | zero =>
    intro reqIdx resp cache executed
    simp [agentLoop]
  | succ fuel ih =>
    intro reqIdx resp cache executed
    simp only [agentLoop]
    cases hfc : resp.functionCalls with
    | cons c cs =>
      cases ho : oracle reqIdx with
      | error err => simp
      | ok next =>
        have := ih (reqIdx + 1) next
          (processBatch exec ctx cache executed (c :: cs)).cache
          (processBatch exec ctx cache executed (c :: cs)).executed
        simpa using Nat.succ_le_succ this
    | nil =>
      cases hvm : validMissingOf required executed with
      | nil => simp
      | cons t ts =>
        cases ho : oracle reqIdx with
        | error err => simp
        | ok next =>
          have := ih (reqIdx + 1) next cache executed
          simpa using Nat.succ_le_succ this

/-! ## The executed-tools set -/

theorem phase1_executed_mono
    (exec : AgentContext → String → String → Except String ToolOutput)
    (ctx : AgentContext) :
    ∀ (calls : List FunctionCall) (cache : List (String × ToolOutput))
      (executed : List String) (x : String),
      executed.contains x = true →
      ((phase1 exec ctx calls cache executed).executed).contains x = true := by
  intro calls
  induction calls with
  | nil =>
    intro cache executed x h
    simpa [phase1] using h
  | cons c rest ih =>
    intro cache executed x h
    simp only [phase1]
    cases hl : lookupA (cacheKeyOf c.name c.args) cache with
    | some cached =>
      exact ih _ _ _ (addTool_mono h c.name)
    | none =>
      by_cases hr : TOOL_REGISTRY_NAMES.contains c.name = true
      · rw [if_pos hr]
        exact ih _ _ _ (addTool_mono h c.name)
      · rw [if_neg hr]
        exact ih _ _ _ (addTool_mono h c.name)

theorem phase1_executed_mem
    (exec : AgentContext → String → String → Except String ToolOutput)
    (ctx : AgentContext) :
    ∀ (calls : List FunctionCall) (cache : List (String × ToolOutput))
      (executed : List String) (c : FunctionCall), c ∈ calls →
      ((phase1 exec ctx calls cache executed).executed).contains c.name = true := by
  intro calls
  induction calls with
  | nil =>
    intro cache executed c h
    simp at h
  | cons c2 rest ih =>
    intro cache executed c h
    rcases List.mem_cons.mp h with heq | hmem
    · subst heq
      simp only [phase1]
      cases hl : lookupA (cacheKeyOf c.name c.args) cache with
      | some cached =>
        exact phase1_executed_mono exec ctx rest _ _ _
          (addTool_contains_self executed c.name)
      | none =>
        by_cases hr : TOOL_REGISTRY_NAMES.contains c.name = true
        · rw [if_pos hr]
          exact phase1_executed_mono exec ctx rest _ _ _
            (addTool_contains_self executed c.name)
        · rw [if_neg hr]
          exact phase1_executed_mono exec ctx rest _ _ _
            (addTool_contains_self executed c.name)
    · simp only [phase1]
      cases hl : lookupA (cacheKeyOf c2.name c2.args) cache with
      | some cached =>
        exact ih _ _ _ hmem
      | none =>
        by_cases hr : TOOL_REGISTRY_NAMES.contains c2.name = true
        · rw [if_pos hr]
          exact ih _ _ _ hmem
        · rw [if_neg hr]
          exact ih _ _ _ hmem

theorem processBatch_executed_mem
    (exec : AgentContext → String → String → Except String ToolOutput)
    (ctx : AgentContext) (cache : List (String × ToolOutput))
    (executed : List String) (calls : List FunctionCall)
    (c : FunctionCall) (h : c ∈ calls) :
    ((processBatch exec ctx cache executed calls).executed).contains
      c.name = true := by
  unfold processBatch
  exact phase1_executed_mem exec ctx calls cache executed c h

theorem validMissing_not_executed (required executed : List String)
    (t : String) (h : t ∈ validMissingOf required executed) :
    executed.contains t = false := by
  unfold validMissingOf missingToolsOf at h
  have := (List.mem_filter.mp ((List.mem_filter.mp h).1)).2
  simpa using this

/-! ## Supervisor behaviour -/

theorem updateDraft_head {u : String} (h : "updateDraft" ∈ requiredToolsOf u) :
    ∃ rest, requiredToolsOf u = "updateDraft" :: rest := by
  unfold requiredToolsOf at h ⊢
  by_cases hc : (strIncludes u "draft" || strIncludes u "write" ||
      strIncludes u "paper" || strIncludes u "report") = true
  · rw [if_pos hc]
    exact ⟨_, rfl⟩
  · rw [if_neg hc] at h
    exfalso
    simp only [List.nil_append, List.mem_append] at h
    rcases h with (h | h) | h <;> (split at h <;> simp_all)

theorem validMissing_head {required executed : List String} {rest : List String}
    (hreq : required = "updateDraft" :: rest)
    (hexec : executed.contains "updateDraft" = false) :
    ∃ ts, validMissingOf required executed = "updateDraft" :: ts := by
  subst hreq
  unfold validMissingOf missingToolsOf
  have hreg : TOOL_REGISTRY_NAMES.contains "updateDraft" = true := by decide
  simp only [List.filter_cons, hexec, Bool.not_false, if_true, hreg]
  exact ⟨_, rfl⟩

theorem agentLoop_supervisor_first
    (exec : AgentContext → String → String → Except String ToolOutput)
    (ctx : AgentContext) (required : List String)
    (oracle : Nat → Except ApiError ModelResponse)
    (fuel reqIdx : Nat) (resp : ModelResponse)
    (cache : List (String × ToolOutput)) (executed : List String)
    (t : String) (ts : List String)
    (hfc : resp.functionCalls = [])
    (hvm : validMissingOf required executed = t :: ts) :
    Event.supervisorStart t ∈
      (agentLoop exec ctx required oracle (fuel + 1) reqIdx resp
        cache executed).events := by
  simp only [agentLoop]
  rw [hfc, hvm]
  cases ho : oracle reqIdx with
  | error err => simp
  | ok next => simp

theorem agentLoop_completed_executed
    (exec : AgentContext → String → String → Except String ToolOutput)
    (ctx : AgentContext) (required : List String)
    (oracle : Nat → Except ApiError ModelResponse) :
    ∀ (fuel reqIdx : Nat) (resp : ModelResponse)
      (cache : List (String × ToolOutput)) (executed : List String),
      (agentLoop exec ctx required oracle fuel reqIdx resp
        cache executed).exitReason = ExitReason.completed →
      ∀ t ∈ required, TOOL_REGISTRY_NAMES.contains t = true →
      ((agentLoop exec ctx required oracle fuel reqIdx resp
        cache executed).executed).contains t = true := by
  intro fuel
  induction fuel with
  | zero =>
    intro reqIdx resp cache executed h
    simp [agentLoop] at h
  | succ fuel ih =>
    intro reqIdx resp cache executed h t ht hreg
    simp only [agentLoop] at h ⊢
    cases hfc : resp.functionCalls with
    | cons c cs =>
      rw [hfc] at h
      cases ho : oracle reqIdx with
      | error err =>
        rw [ho] at h
        simp at h
      | ok next =>
        rw [ho] at h
        simpa using ih _ _ _ _ (by simpa using h) t ht hreg
    | nil =>
      rw [hfc] at h
      cases hvm : validMissingOf required executed with
      | nil =>
        have hgoal : executed.contains t = true := by
          by_contra hcon
          have hfalse : executed.contains t = false := by
            cases hval : executed.contains t
            · rfl
            · exact absurd hval hcon
          have hmem : t ∈ validMissingOf required executed := by
            unfold validMissingOf missingToolsOf
            refine List.mem_filter.mpr ⟨List.mem_filter.mpr ⟨ht, ?_⟩, ?_⟩
            · rw [hfalse]; rfl
            · exact hreg
          rw [hvm] at hmem
          simp at hmem
        simpa using hgoal
      | cons t2 ts =>
        rw [hvm] at h
        cases ho : oracle reqIdx with
        | error err =>
          rw [ho] at h
          simp at h
        | ok next =>
          rw [ho] at h
          simpa using ih _ _ _ _ (by simpa using h) t ht hreg

/-! ## Callback-ordering checker (onToolStart before onToolResult) -/

/-- The call ids whose `onToolStart` has fired by the end of the event
list, given those that had fired before it. -/
def startedAfter (started : List String) : List Event → List String
  | [] => started
  | Event.toolStart cid _ :: rest => startedAfter (cid :: started) rest
  | _ :: rest => startedAfter started rest

/-- Checks that every `onToolResult` in the list is preceded by an
`onToolStart` with the same call id (`started` holds ids already
started). -/
def startBeforeResult (started : List String) : List Event → Bool
  | [] => true
  | Event.toolStart cid _ :: rest => startBeforeResult (cid :: started) rest
  | Event.toolResult cid _ _ _ _ :: rest =>
    started.contains cid && startBeforeResult started rest
  | _ :: rest => startBeforeResult started rest

theorem startBeforeResult_append :
    ∀ (l1 l2 : List Event) (s : List String),
      startBeforeResult s (l1 ++ l2) =
        (startBeforeResult s l1 && startBeforeResult (startedAfter s l1) l2) := by
  intro l1
  induction l1 with
  | nil =>
    intro l2 s
    simp [startBeforeResult, startedAfter]
  | cons e rest ih =>
    intro l2 s
    cases e <;> simp [startBeforeResult, startedAfter, ih, Bool.and_assoc]

theorem contains_cons_of {s : List String} {x c : String}
    (h : s.contains x = true) : (c :: s).contains x = true := by
  rw [List.elem_iff] at h ⊢
  exact List.mem_cons_of_mem _ h

theorem startedAfter_contains_mono :
    ∀ (l : List Event) (s : List String) (x : String),
      s.contains x = true → (startedAfter s l).contains x = true := by
  intro l
  induction l with
  | nil =>
    intro s x h
    simpa [startedAfter] using h
  | cons e rest ih =>
    intro s x h
    cases e <;> simp only [startedAfter] <;>
      first
        | exact ih _ _ h
        | exact ih _ _ (contains_cons_of h)

theorem startBeforeResult_hooks {l : List Event}
    (h : ∀ e ∈ l, isHookEvent e = true) :
    ∀ s, startBeforeResult s l = true ∧ startedAfter s l = s := by
  induction l with
  | nil =>
    intro s
    simp [startBeforeResult, startedAfter]
  | cons e rest ih =>
    intro s
    have he := h e (List.mem_cons_self _ _)
    have hrest := fun e2 h2 => h e2 (List.mem_cons_of_mem _ h2)
    cases e <;> simp [isHookEvent] at he <;>
      simpa [startBeforeResult, startedAfter] using ih hrest s

theorem phase1_startBeforeResult
    (exec : AgentContext → String → String → Except String ToolOutput)
    (ctx : AgentContext) :
    ∀ (calls : List FunctionCall) (cache : List (String × ToolOutput))
      (executed : List String) (s : List String),
      startBeforeResult s ((phase1 exec ctx calls cache executed).events) = true := by
  intro calls
  induction calls with
  | nil =>
    intro cache executed s
    simp [phase1, startBeforeResult]
  | cons c rest ih =>
    intro cache executed s
    simp only [phase1]
    cases hl : lookupA (cacheKeyOf c.name c.args) cache with
    | some cached =>
      simpa [startBeforeResult] using ih _ _ _
    | none =>
      by_cases hr : TOOL_REGISTRY_NAMES.contains c.name = true
      · rw [if_pos hr]
        simpa [startBeforeResult] using ih _ _ _
      · rw [if_neg hr]
        simp [startBeforeResult, List.elem_cons, ih _ _ _]

theorem phase1_pendings_started
    (exec : AgentContext → String → String → Except String ToolOutput)
    (ctx : AgentContext) :
    ∀ (calls : List FunctionCall) (cache : List (String × ToolOutput))
      (executed : List String) (s : List String) (p : Pending),
      p ∈ (phase1 exec ctx calls cache executed).pendings →
      ((startedAfter s ((phase1 exec ctx calls cache executed).events)).contains
        p.callId) = true := by
  intro calls
  induction calls with
  | nil =>
    intro cache executed s p h
    simp [phase1] at h
  | cons c rest ih =>
    intro cache executed s p h
    simp only [phase1] at h ⊢
    cases hl : lookupA (cacheKeyOf c.name c.args) cache with
    | some cached =>
      rw [hl] at h
      simp only [startedAfter]
      exact ih _ _ _ p h
    | none =>
      rw [hl] at h
      by_cases hr : TOOL_REGISTRY_NAMES.contains c.name = true
      · rw [if_pos hr] at h ⊢
        simp only [startedAfter]
        rcases List.mem_cons.mp h with heq | hmem
        · subst heq
          exact startedAfter_contains_mono _ _ _ (by simp [List.elem_cons])
        · exact ih _ _ _ p hmem
      · rw [if_neg hr] at h ⊢
        simp only [startedAfter]
        exact ih _ _ _ p h

theorem phase2_startBeforeResult :
    ∀ (pend : List Pending) (cache : List (String × ToolOutput))
      (s : List String),
      (∀ p ∈ pend, s.contains p.callId = true) →
      startBeforeResult s ((phase2 pend cache).events) = true := by
  intro pend
  induction pend with
  | nil =>
    intro cache s _
    simp [phase2, startBeforeResult]
  | cons p rest ih =>
    intro cache s hs
    have hp := hs p (List.mem_cons_self _ _)
    have hrest := fun q hq => hs q (List.mem_cons_of_mem _ hq)
    simp only [phase2]
    cases hres : p.result with
    | ok r =>
      rw [startBeforeResult_append]
      have hh := startBeforeResult_hooks (l := hookEvents p.name r)
        (fun e he => hookEvents_mem he) s
      rw [hh.1, hh.2]
      simp only [startBeforeResult, hp, Bool.true_and, Bool.and_true]
      exact ih _ _ hrest
    | error msg =>
      simp only [startBeforeResult, hp, Bool.true_and, Bool.and_true]
      exact ih _ _ hrest

theorem processBatch_startBeforeResult
    (exec : AgentContext → String → String → Except String ToolOutput)
    (ctx : AgentContext) (cache : List (String × ToolOutput))
    (executed : List String) (calls : List FunctionCall) (s : List String) :
    startBeforeResult s ((processBatch exec ctx cache executed calls).events) = true := by
  unfold processBatch
  rw [startBeforeResult_append]
  rw [phase1_startBeforeResult exec ctx calls cache executed s]
  rw [phase2_startBeforeResult _ _ _
    (fun p hp => phase1_pendings_started exec ctx calls cache executed s p hp)]
  rfl

theorem agentLoop_startBeforeResult
    (exec : AgentContext → String → String → Except String ToolOutput)
    (ctx : AgentContext) (required : List String)
    (oracle : Nat → Except ApiError ModelResponse) :
    ∀ (fuel reqIdx : Nat) (resp : ModelResponse)
      (cache : List (String × ToolOutput)) (executed : List String)
      (s : List String),
      startBeforeResult s ((agentLoop exec ctx required oracle fuel reqIdx resp
        cache executed).events) = true := by
  intro fuel
  induction fuel with
  | zero =>
    intro reqIdx resp cache executed s
    simp [agentLoop, startBeforeResult]
  | succ fuel ih =>
    intro reqIdx resp cache executed s
    simp only [agentLoop]
    cases hfc : resp.functionCalls with
    | cons c cs =>
      cases ho : oracle reqIdx with
      | error err =>
        exact processBatch_startBeforeResult exec ctx cache executed (c :: cs) s
      | ok next =>
        rw [startBeforeResult_append,
          processBatch_startBeforeResult exec ctx cache executed (c :: cs) s,
          ih _ _ _ _ _]
        rfl
    | nil =>
      cases hvm : validMissingOf required executed with
      | nil =>
        simp [startBeforeResult]
      | cons t ts =>
        cases ho : oracle reqIdx with
        | error err =>
          simp [startBeforeResult]
        | ok next =>
          simpa [startBeforeResult] using ih _ _ _ _ _

/-! ## A batch served entirely from the cache -/

theorem phase1_allhit
    (exec : AgentContext → String → String → Except String ToolOutput)
    (ctx : AgentContext) :
    ∀ (calls : List FunctionCall) (cache : List (String × ToolOutput))
      (executed : List String),
      (∀ c ∈ calls, ¬(lookupA (cacheKeyOf c.name c.args) cache = none)) →
      (phase1 exec ctx calls cache executed).cache = cache ∧
      (phase1 exec ctx calls cache executed).pendings = [] ∧
      ((phase1 exec ctx calls cache executed).events).countP isToolStartAny = 0 ∧
      ((phase1 exec ctx calls cache executed).events).countP isToolResultAny = 0 ∧
      ((phase1 exec ctx calls cache executed).events).countP isFrSentAny =
        calls.length := by
  intro calls
  induction calls with
  | nil =>
    intro cache executed _
    refine ⟨rfl, rfl, ?_, ?_, ?_⟩ <;> simp [phase1]
  | cons c rest ih =>
    intro cache executed hall
    have hc := hall c (List.mem_cons_self _ _)
    have hrest := fun c2 h2 => hall c2 (List.mem_cons_of_mem _ h2)
    simp only [phase1]
    cases hl : lookupA (cacheKeyOf c.name c.args) cache with
    | none => exact absurd hl hc
    | some v =>
      obtain ⟨h1, h2, h3, h4, h5⟩ := ih cache (addTool executed c.name) hrest
      refine ⟨h1, h2, ?_, ?_, ?_⟩ <;>
        simp [List.countP_cons, h3, h4, h5, isToolStartAny, isToolResultAny,
          isFrSentAny]

theorem processBatch_allhit
    (exec : AgentContext → String → String → Except String ToolOutput)
    (ctx : AgentContext) (cache : List (String × ToolOutput))
    (executed : List String) (calls : List FunctionCall)
    (hall : ∀ c ∈ calls, ¬(lookupA (cacheKeyOf c.name c.args) cache = none)) :
    ((processBatch exec ctx cache executed calls).events).countP
      isToolStartAny = 0 ∧
    ((processBatch exec ctx cache executed calls).events).countP
      isToolResultAny = 0 ∧
    ((processBatch exec ctx cache executed calls).events).countP
      isFrSentAny = calls.length ∧
    (processBatch exec ctx cache executed calls).cache = cache := by
  obtain ⟨h1, h2, h3, h4, h5⟩ := phase1_allhit exec ctx calls cache executed hall
  simp only [processBatch]
  rw [h2, h1]
  refine ⟨?_, ?_, ?_, rfl⟩ <;>
    simp [phase2, List.countP_append, h3, h4, h5]

/-! ## Retry schedules -/

theorem retryRequest_nonquota {α : Type} (fn : Nat → Except ApiError α)
    (e : ApiError) (h0 : fn 0 = .error e) (hq : isQuotaError e = false) :
    retryRequest fn = ⟨.thrown e, [], 1⟩ := by
  unfold retryRequest
  show retryLoop fn 3 (2 + 1) 0 = _
  simp only [retryLoop, h0, hq]
  simp

theorem retryLoop_step_quota {α : Type} (fn : Nat → Except ApiError α)
    (retries remaining i : Nat) (e : ApiError)
    (he : fn i = .error e) (hq : isQuotaError e = true)
    (hlt : decide (i < retries - 1) = true) :
    retryLoop fn retries (remaining + 1) i =
      ⟨(retryLoop fn retries remaining (i + 1)).outcome,
       2000 * 2 ^ i :: (retryLoop fn retries remaining (i + 1)).waits,
       (retryLoop fn retries remaining (i + 1)).invocations + 1⟩ := by
  simp only [retryLoop, he, hq, hlt]
  simp

theorem retryLoop_step_stop {α : Type} (fn : Nat → Except ApiError α)
    (retries remaining i : Nat) (e : ApiError)
    (he : fn i = .error e)
    (hcond : (isQuotaError e && decide (i < retries - 1)) = false) :
    retryLoop fn retries (remaining + 1) i = ⟨.thrown e, [], 1⟩ := by
  simp only [retryLoop, he, hcond]
  simp

theorem retryRequest_quota_schedule {α : Type} (fn : Nat → Except ApiError α)
    (e0 e1 e2 : ApiError)
    (h0 : fn 0 = .error e0) (hq0 : isQuotaError e0 = true)
    (h1 : fn 1 = .error e1) (hq1 : isQuotaError e1 = true)
    (h2 : fn 2 = .error e2) (hq2 : isQuotaError e2 = true) :
    retryRequest fn = ⟨.thrown e2, [2000, 4000], 3⟩ := by
  unfold retryRequest
  rw [show (3 : Nat) = 2 + 1 from rfl]
  rw [retryLoop_step_quota fn (2 + 1) 2 0 e0 h0 hq0 (by decide)]
  rw [show (2 : Nat) = 1 + 1 from rfl]
  rw [retryLoop_step_quota fn ((1 + 1) + 1) 1 1 e1 h1 hq1 (by decide)]
  rw [retryLoop_step_stop fn ((1 + 1) + 1) 0 (1 + 1) e2 h2 (by simp [hq2])]
  norm_num

/-! ## sendMessage-level facts -/

theorem sendMessage_initial_error
    (exec : AgentContext → String → String → Except String ToolOutput)
    (ctx : AgentContext) (message : List (Option String))
    (oracle : Nat → Except ApiError ModelResponse) (e : ApiError)
    (h : oracle 0 = .error e) :
    sendMessage exec ctx message oracle =
      ⟨.error e, 0, [], [], [], .initialThrow⟩ := by
  simp only [sendMessage, h]

theorem sendMessage_ok_result
    (exec : AgentContext → String → String → Except String ToolOutput)
    (ctx : AgentContext) (message : List (Option String))
    (oracle : Nat → Except ApiError ModelResponse) (r0 : ModelResponse)
    (h : oracle 0 = .ok r0) :
    ∃ s, (sendMessage exec ctx message oracle).result = .ok s := by
  simp only [sendMessage, h]
  exact ⟨_, rfl⟩

theorem sendMessage_iterations_le
    (exec : AgentContext → String → String → Except String ToolOutput)
    (ctx : AgentContext) (message : List (Option String))
    (oracle : Nat → Except ApiError ModelResponse) :
    (sendMessage exec ctx message oracle).iterations ≤ 15 := by
  simp only [sendMessage]
  cases h0 : oracle 0 with
  | error e => simp
  | ok r0 =>
    simpa using agentLoop_iterations_le exec ctx _ oracle MAX_LOOPS 1 r0 [] []

theorem sendMessage_countP_zero
    (exec : AgentContext → String → String → Except String ToolOutput)
    (ctx : AgentContext) (message : List (Option String))
    (oracle : Nat → Except ApiError ModelResponse) (p : Event → Bool)
    (hbatch : ∀ cache2 executed2 calls,
      ((processBatch exec ctx cache2 executed2 calls).events).countP p = 0)
    (hsup : ∀ t, p (Event.supervisorStart t) = false) :
    ((sendMessage exec ctx message oracle).events).countP p = 0 := by
  simp only [sendMessage]
  cases h0 : oracle 0 with
  | error e => simp
  | ok r0 =>
    simpa using agentLoop_countP_zero exec ctx _ oracle p hbatch hsup
      MAX_LOOPS 1 r0 [] []

theorem sendMessage_supervisor_mem
    (exec : AgentContext → String → String → Except String ToolOutput)
    (ctx : AgentContext) (message : List (Option String))
    (oracle : Nat → Except ApiError ModelResponse) (r0 : ModelResponse)
    (h0 : oracle 0 = .ok r0) (hfc : r0.functionCalls = [])
    (hdraft : "updateDraft" ∈ requiredToolsOf (lowerStr (joinParts message))) :
    Event.supervisorStart "updateDraft" ∈
      (sendMessage exec ctx message oracle).events := by
  obtain ⟨rest, hreq⟩ := updateDraft_head hdraft
  obtain ⟨ts, hvm⟩ := validMissing_head hreq (show ([] : List String).contains
    "updateDraft" = false from rfl)
  simp only [sendMessage, h0]
  have := agentLoop_supervisor_first exec ctx
    (requiredToolsOf (lowerStr (joinParts message))) oracle 14 1 r0 [] []
    "updateDraft" ts hfc hvm
  simpa [MAX_LOOPS] using this

theorem sendMessage_completed_executed
    (exec : AgentContext → String → String → Except String ToolOutput)
    (ctx : AgentContext) (message : List (Option String))
    (oracle : Nat → Except ApiError ModelResponse)
    (h : (sendMessage exec ctx message oracle).exitReason =
      ExitReason.completed)
    (hdraft : "updateDraft" ∈ requiredToolsOf (lowerStr (joinParts message))) :
    ((sendMessage exec ctx message oracle).executed).contains
      "updateDraft" = true := by
  simp only [sendMessage] at h ⊢
  cases h0 : oracle 0 with
  | error e =>
    rw [h0] at h
    simp at h
  | ok r0 =>
    rw [h0] at h
    simpa using agentLoop_completed_executed exec ctx _ oracle MAX_LOOPS 1 r0
      [] [] (by simpa using h) "updateDraft" hdraft (by decide)

theorem sendMessage_startBeforeResult
    (exec : AgentContext → String → String → Except String ToolOutput)
    (ctx : AgentContext) (message : List (Option String))
    (oracle : Nat → Except ApiError ModelResponse) :
    startBeforeResult [] ((sendMessage exec ctx message oracle).events) = true := by
  simp only [sendMessage]
  cases h0 : oracle 0 with
  | error e => simp [startBeforeResult]
  | ok r0 =>
    simpa using agentLoop_startBeforeResult exec ctx _ oracle MAX_LOOPS 1 r0 [] [] []

/-! ## Singleton batches -/

theorem processBatch_singleton_unknown
    (exec : AgentContext → String → String → Except String ToolOutput)
    (ctx : AgentContext) (cache : List (String × ToolOutput))
    (executed : List String) (c : FunctionCall)
    (hreg : TOOL_REGISTRY_NAMES.contains c.name = false)
    (hl : lookupA (cacheKeyOf c.name c.args) cache = none) :
    processBatch exec ctx cache executed [c] =
      ⟨(cacheKeyOf c.name c.args, unavailableOutput c.name) :: cache,
       addTool executed c.name,
       [Event.toolStart (resolveCallId c) c.name,
        Event.toolResult (resolveCallId c) c.name c.args
          ((unavailableOutput c.name).text) none,
        Event.frSent c.name (resolveCallId c)
          ((unavailableOutput c.name).text) none]⟩ := by
  simp only [processBatch, phase1, hl]
  rw [if_neg (show ¬(TOOL_REGISTRY_NAMES.contains c.name = true) by
    rw [hreg]; simp)]
  simp only [phase1, phase2]
  rw [resultOutput_unavailable]
  rfl

theorem processBatch_singleton_execError
    (exec : AgentContext → String → String → Except String ToolOutput)
    (ctx : AgentContext) (cache : List (String × ToolOutput))
    (executed : List String) (c : FunctionCall) (msg : String)
    (hreg : TOOL_REGISTRY_NAMES.contains c.name = true)
    (hexec : exec ctx c.name c.args = .error msg)
    (hl : lookupA (cacheKeyOf c.name c.args) cache = none) :
    processBatch exec ctx cache executed [c] =
      ⟨(cacheKeyOf c.name c.args, execErrorOutput msg) :: cache,
       addTool executed c.name,
       [Event.toolStart (resolveCallId c) c.name,
        Event.execInvoke c.name c.args,
        Event.toolResult (resolveCallId c) c.name c.args
          ("Error executing tool: " ++ msg) none,
        Event.frSent c.name (resolveCallId c)
          ("Error executing tool: " ++ msg) none]⟩ := by
  simp only [processBatch, phase1, hl]
  rw [if_pos hreg]
  simp only [phase1, phase2, hexec]
  rw [resultOutput_execError]
  rfl

theorem processBatch_singleton_ok
    (exec : AgentContext → String → String → Except String ToolOutput)
    (ctx : AgentContext) (cache : List (String × ToolOutput))
    (executed : List String) (c : FunctionCall) (r : ToolOutput)
    (hreg : TOOL_REGISTRY_NAMES.contains c.name = true)
    (hexec : exec ctx c.name c.args = .ok r)
    (hl : lookupA (cacheKeyOf c.name c.args) cache = none) :
    processBatch exec ctx cache executed [c] =
      ⟨(cacheKeyOf c.name c.args, r) :: cache,
       addTool executed c.name,
       [Event.toolStart (resolveCallId c) c.name,
        Event.execInvoke c.name c.args] ++
       (hookEvents c.name r ++
        [Event.toolResult (resolveCallId c) c.name c.args (resultOutput r)
          r.meta,
         Event.frSent c.name (resolveCallId c) r.text none])⟩ := by
  simp only [processBatch, phase1, hl]
  rw [if_pos hreg]
  simp only [phase1, phase2, hexec]
  rfl

/-! ## Concrete fixtures for the claim theorems -/

/-- An executor that always succeeds with text `R`. -/
def okExec : AgentContext → String → String → Except String ToolOutput :=
  fun _ _ _ => .ok ⟨"R", none⟩

/-- An executor that always throws with message `boom`. -/
def throwExec : AgentContext → String → String → Except String ToolOutput :=
  fun _ _ _ => .error "boom"

/-- An executor that always succeeds with text `DRAFT DONE`. -/
def draftExec : AgentContext → String → String → Except String ToolOutput :=
  fun _ _ _ => .ok ⟨"DRAFT DONE", none⟩

def dupCall1 : FunctionCall := ⟨"searchWeb", "\x7b\x22q\x22:1\x7d", "id1"⟩

def dupCall2 : FunctionCall := ⟨"searchWeb", "\x7b\x22q\x22:1\x7d", "id2"⟩

def draftCall : FunctionCall := ⟨"updateDraft", "\x7b\x7d", "idX"⟩

/-- The serialized cache key shared by `dupCall1` and `dupCall2`. -/
def dupArgs : String := "\x7b\x22q\x22:1\x7d"

/-- First response carries the two identical calls, then plain text. -/
def sameBatchOracle : Nat → Except ApiError ModelResponse := fun n =>
  if n == 0 then .ok ⟨[dupCall1, dupCall2], ""⟩ else .ok ⟨[], "done"⟩

/-- The identical pair arrives in two successive responses. -/
def crossIterOracle : Nat → Except ApiError ModelResponse := fun n =>
  if n == 0 then .ok ⟨[dupCall1], ""⟩
  else if n == 1 then .ok ⟨[dupCall2], ""⟩
  else .ok ⟨[], "done"⟩

/-- One tool call, then plain text. -/
def oneCallOracle : Nat → Except ApiError ModelResponse := fun n =>
  if n == 0 then .ok ⟨[dupCall1], ""⟩ else .ok ⟨[], "done"⟩

/-- One `updateDraft` call, then plain text. -/
def draftOracle : Nat → Except ApiError ModelResponse := fun n =>
  if n == 0 then .ok ⟨[draftCall], ""⟩ else .ok ⟨[], "done"⟩

/-- A model that only ever answers with plain text. -/
def textOracle : Nat → Except ApiError ModelResponse := fun _ => .ok ⟨[], "ok"⟩

/-- Every request fails even after the retry policy. -/
def failingOracle : Nat → Except ApiError ModelResponse :=
  fun _ => .error ⟨"500 boom", none⟩

/-- Every response carries a function call. -/
def callsForeverOracle : Nat → Except ApiError ModelResponse :=
  fun _ => .ok ⟨[dupCall1], ""⟩

/-- A wrapped request that always fails with a rate-limit error. -/
def quotaFn : Nat → Except ApiError Nat := fun _ => .error ⟨"429 quota", none⟩

/-- A context whose allow-list does not include `updateDraft`. -/
def ctxNoDraft : AgentContext := { enabledTools := ["searchWeb"] }

/-- A context whose allow-list includes `updateDraft`. -/
def ctxDraft : AgentContext := { enabledTools := ["updateDraft"] }

/-! ## The claims -/

/-- C1: the claim as stated is false: two function calls with identical
(toolName, serialized-args) pairs inside the SAME model response each
invoke the executor — the turn cache is only populated when an execution
resolves, after every sibling callback has already run its synchronous
cache check.  In the concrete run the one response carries `dupCall1` and
`dupCall2` with the same pair, and the trace records two executor
invocations, not one. -/
theorem C1_counterexample :
    ((sendMessage okExec {} [some "hello"] sameBatchOracle).events).countP
      (isExecInvokeKey "searchWeb" dupArgs) = 2 ∧
    ¬(((sendMessage okExec {} [some "hello"] sameBatchOracle).events).countP
      (isExecInvokeKey "searchWeb" dupArgs) = 1) := by
  constructor
  · decide
  · decide

/-- C1 (amended): cache idempotence holds across loop iterations, not
within one response.  (i) If a pair is already cached when a batch is
processed, the batch performs no executor invocation for it and the cached
output survives unchanged.  (ii) If the pair is not yet cached, its
registry executor is invoked once per occurrence in that batch (so
same-response duplicates each execute).  (iii) In the concrete
cross-iteration run the pair executes once and both calls ship the same
payload text back to the model. -/
theorem C1_cache_idempotence_amended :
    (∀ (exec : AgentContext → String → String → Except String ToolOutput)
      (ctx : AgentContext) (cache : List (String × ToolOutput))
      (executed : List String) (calls : List FunctionCall) (n a : String)
      (v : ToolOutput),
      lookupA (cacheKeyOf n a) cache = some v →
      ((processBatch exec ctx cache executed calls).events).countP
        (isExecInvokeKey n a) = 0 ∧
      lookupA (cacheKeyOf n a)
        (processBatch exec ctx cache executed calls).cache = some v) ∧
    (∀ (exec : AgentContext → String → String → Except String ToolOutput)
      (ctx : AgentContext) (cache : List (String × ToolOutput))
      (executed : List String) (calls : List FunctionCall) (n a : String),
      TOOL_REGISTRY_NAMES.contains n = true →
      (∀ c ∈ calls, cacheKeyOf c.name c.args = cacheKeyOf n a →
        c.name = n ∧ c.args = a) →
      lookupA (cacheKeyOf n a) cache = none →
      ((processBatch exec ctx cache executed calls).events).countP
        (isExecInvokeKey n a) = calls.countP (matchesPair n a)) ∧
    (((sendMessage okExec {} [some "hello"] crossIterOracle).events).countP
        (isExecInvokeKey "searchWeb" dupArgs) = 1 ∧
      Event.frSent "searchWeb" "id1" "R" none ∈
        (sendMessage okExec {} [some "hello"] crossIterOracle).events ∧
      Event.frSent "searchWeb" "id2" "R" none ∈
        (sendMessage okExec {} [some "hello"] crossIterOracle).events) := by
  refine ⟨?_, ?_, ?_, ?_, ?_⟩
  · intro exec ctx cache executed calls n a v h
    exact ⟨processBatch_countP_execKey_zero_of_cached exec ctx cache executed
        calls n a v h,
      processBatch_cache_mono exec ctx cache executed calls _ v h⟩
  · intro exec ctx cache executed calls n a hreg huniq hnone
    exact processBatch_countP_execKey_fresh exec ctx cache executed calls
      n a hreg huniq hnone
  · decide
  · decide
  · decide

/-- C2: the claim as stated is false on the `enabledTools` half: at
dispatch time the orchestrator looks the tool up in `TOOL_REGISTRY`
directly (line 201), never consulting the allow-list, so a registry tool
missing from `enabledTools` still executes.  Here `updateDraft` is not in
`ctxNoDraft.enabledTools`, yet its executor is invoked once and its real
output `DRAFT DONE` — not the synthetic unavailable-tool error — is
reported. -/
theorem C2_counterexample :
    TOOL_REGISTRY_NAMES.contains "updateDraft" = true ∧
    ctxNoDraft.enabledTools.contains "updateDraft" = false ∧
    ((sendMessage draftExec ctxNoDraft [some "hello"] draftOracle).events).countP
      (isExecInvokeFor "updateDraft") = 1 ∧
    Event.toolResult "idX" "updateDraft" "\x7b\x7d" "DRAFT DONE" none ∈
      (sendMessage draftExec ctxNoDraft [some "hello"] draftOracle).events := by
  refine ⟨by decide, by decide, by decide, by decide⟩

/-- C2 (amended): only absence from `TOOL_REGISTRY` triggers the synthetic
error (the allow-list is not checked at dispatch).  For a name outside the
registry no executor invocation ever happens in a turn, every
`onToolResult` for that name carries exactly the synthetic output — whose
text is `Error: Tool '<name>' is not available.` — and nothing is thrown
(the run is total and the batch result is fully determined). -/
theorem C2_unknown_tool_amended :
    (∀ (exec : AgentContext → String → String → Except String ToolOutput)
      (ctx : AgentContext) (message : List (Option String))
      (oracle : Nat → Except ApiError ModelResponse) (n : String),
      TOOL_REGISTRY_NAMES.contains n = false →
      ((sendMessage exec ctx message oracle).events).countP
        (isExecInvokeFor n) = 0 ∧
      ((sendMessage exec ctx message oracle).events).countP
        (isBadUnknownResult n) = 0) ∧
    (∀ (exec : AgentContext → String → String → Except String ToolOutput)
      (ctx : AgentContext) (cache : List (String × ToolOutput))
      (executed : List String) (c : FunctionCall),
      TOOL_REGISTRY_NAMES.contains c.name = false →
      lookupA (cacheKeyOf c.name c.args) cache = none →
      processBatch exec ctx cache executed [c] =
        ⟨(cacheKeyOf c.name c.args, unavailableOutput c.name) :: cache,
         addTool executed c.name,
         [Event.toolStart (resolveCallId c) c.name,
          Event.toolResult (resolveCallId c) c.name c.args
            ((unavailableOutput c.name).text) none,
          Event.frSent c.name (resolveCallId c)
            ((unavailableOutput c.name).text) none]⟩) := by
  constructor
  · intro exec ctx message oracle n hreg
    constructor
    · exact sendMessage_countP_zero exec ctx message oracle _
        (fun c2 e2 calls =>
          processBatch_countP_execFor_zero_unknown exec ctx c2 e2 calls n hreg)
        (fun t => rfl)
    · exact sendMessage_countP_zero exec ctx message oracle _
        (fun c2 e2 calls =>
          processBatch_countP_badUnknown_zero exec ctx c2 e2 calls n hreg)
        (fun t => rfl)
  · intro exec ctx cache executed c hreg hl
    exact processBatch_singleton_unknown exec ctx cache executed c hreg hl

/-- C3: the claim as stated is false: with `updateDraft` required (the
user text contains `write`) and enabled, a model that keeps answering
plain text is forced by the supervisor on every iteration, yet the turn
still terminates — by exhausting the 15-iteration budget — while
`updateDraft` was never executed.  The run below returns the string `ok`
with `updateDraft` absent from the executed set. -/
theorem C3_counterexample :
    "updateDraft" ∈ requiredToolsOf (lowerStr (joinParts [some "write"])) ∧
    ctxDraft.enabledTools.contains "updateDraft" = true ∧
    (sendMessage okExec ctxDraft [some "write"] textOracle).iterations = 15 ∧
    (sendMessage okExec ctxDraft [some "write"] textOracle).exitReason =
      ExitReason.budgetExhausted ∧
    (sendMessage okExec ctxDraft [some "write"] textOracle).result =
      Except.ok "ok" ∧
    ((sendMessage okExec ctxDraft [some "write"] textOracle).executed).contains
      "updateDraft" = false := by
  refine ⟨by decide, by decide, by decide, by decide, by rfl, by decide⟩

/-- C3 (amended): mandatory-tool enforcement holds up to the loop budget
and request failures.  (i) Whenever the initial model response is plain
text and the user text requires `updateDraft`, at least one
supervisor-forced continuation for `updateDraft` is issued before
`sendMessage` returns (`updateDraft` is the first entry of the required
set, so it is the tool the supervisor picks).  (ii) A turn that ends
through the normal completion break — rather than by budget exhaustion or
a failed request — never ends with a required `updateDraft` unexecuted. -/
theorem C3_mandatory_tool_amended :
    (∀ (exec : AgentContext → String → String → Except String ToolOutput)
      (ctx : AgentContext) (message : List (Option String))
      (oracle : Nat → Except ApiError ModelResponse) (r0 : ModelResponse),
      oracle 0 = .ok r0 → r0.functionCalls = [] →
      "updateDraft" ∈ requiredToolsOf (lowerStr (joinParts message)) →
      Event.supervisorStart "updateDraft" ∈
        (sendMessage exec ctx message oracle).events) ∧
    (∀ (exec : AgentContext → String → String → Except String ToolOutput)
      (ctx : AgentContext) (message : List (Option String))
      (oracle : Nat → Except ApiError ModelResponse),
      (sendMessage exec ctx message oracle).exitReason =
        ExitReason.completed →
      "updateDraft" ∈ requiredToolsOf (lowerStr (joinParts message)) →
      ((sendMessage exec ctx message oracle).executed).contains
        "updateDraft" = true) := by
  constructor
  · intro exec ctx message oracle r0 h0 hfc hdraft
    exact sendMessage_supervisor_mem exec ctx message oracle r0 h0 hfc hdraft
  · intro exec ctx message oracle h hdraft
    exact sendMessage_completed_executed exec ctx message oracle h hdraft

/-- C4: the claim as stated is false: the initial model request of
line 163 is not wrapped in any try/catch, so when it fails even after the
retry policy the error propagates out of `sendMessage` instead of
resolving to a string.  Here every request fails and the call ends in the
thrown error, not in an `ok` string. -/
theorem C4_counterexample :
    (sendMessage okExec {} [some "hello"] failingOracle).result =
      Except.error ⟨"500 boom", none⟩ := by
  rfl

/-- C4 (amended): only in-loop request failures are swallowed.  (i) A
failure of the initial send propagates to the caller as the thrown error.
(ii) Whenever the initial send succeeds, `sendMessage` resolves with some
string no matter how the later batched function-response sends or
supervisor sends fail — those breaks leave the loop early and the
available text (or the fallback message) is returned. -/
theorem C4_no_throw_amended :
    (∀ (exec : AgentContext → String → String → Except String ToolOutput)
      (ctx : AgentContext) (message : List (Option String))
      (oracle : Nat → Except ApiError ModelResponse) (e : ApiError),
      oracle 0 = .error e →
      (sendMessage exec ctx message oracle).result = .error e) ∧
    (∀ (exec : AgentContext → String → String → Except String ToolOutput)
      (ctx : AgentContext) (message : List (Option String))
      (oracle : Nat → Except ApiError ModelResponse) (r0 : ModelResponse),
      oracle 0 = .ok r0 →
      ∃ s, (sendMessage exec ctx message oracle).result = .ok s) := by
  constructor
  · intro exec ctx message oracle e h
    rw [sendMessage_initial_error exec ctx message oracle e h]
  · intro exec ctx message oracle r0 h
    exact sendMessage_ok_result exec ctx message oracle r0 h

/-- C5: the claim as stated is false: with the default budget of 3 the
`for (let i = 0; i < retries; i++)` loop makes exactly 3 invocations of
the wrapped request, waiting 2000 ms and then 4000 ms in between; the
third rate-limit failure is rethrown immediately — there is no 4th
attempt (and never an 8-second wait). -/
theorem C5_counterexample :
    retryRequest quotaFn =
      ⟨.thrown ⟨"429 quota", none⟩, [2000, 4000], 3⟩ ∧
    ¬((retryRequest quotaFn).invocations = 4) ∧
    ¬((retryRequest quotaFn).waits = [2000, 4000, 8000]) := by
  refine ⟨by decide, by decide, by decide⟩

/-- C5 (amended): the backoff schedule, corrected to 3 total attempts.
(i) A non-rate-limit failure of the first attempt is rethrown immediately
after a single invocation with no backoff wait.  (ii) Three consecutive
rate-limit failures produce exactly 3 invocations with waits of
2000 ms and 4000 ms (2000 * 2^i after attempt i), and the third error is
rethrown permanently — the failure happens on the 3rd attempt, not a
4th. -/
theorem C5_retry_backoff_amended :
    (∀ (α : Type) (fn : Nat → Except ApiError α) (e : ApiError),
      fn 0 = .error e → isQuotaError e = false →
      retryRequest fn = ⟨.thrown e, [], 1⟩) ∧
    (∀ (α : Type) (fn : Nat → Except ApiError α) (e0 e1 e2 : ApiError),
      fn 0 = .error e0 → isQuotaError e0 = true →
      fn 1 = .error e1 → isQuotaError e1 = true →
      fn 2 = .error e2 → isQuotaError e2 = true →
      retryRequest fn = ⟨.thrown e2, [2000, 4000], 3⟩) := by
  constructor
  · intro α fn e h0 hq
    exact retryRequest_nonquota fn e h0 hq
  · intro α fn e0 e1 e2 h0 hq0 h1 hq1 h2 hq2
    exact retryRequest_quota_schedule fn e0 e1 e2 h0 hq0 h1 hq1 h2 hq2

/-- C6: the turn loop is bounded: for every executor behaviour, context,
message and model oracle — including a model whose every response carries
function calls — `sendMessage` performs at most 15 loop iterations
(`MAX_LOOPS`), and the bound is attained by the always-calling model. -/
theorem C6_loop_termination :
    (∀ (exec : AgentContext → String → String → Except String ToolOutput)
      (ctx : AgentContext) (message : List (Option String))
      (oracle : Nat → Except ApiError ModelResponse),
      (sendMessage exec ctx message oracle).iterations ≤ 15) ∧
    (sendMessage okExec {} [some "hello"] callsForeverOracle).iterations = 15 := by
  constructor
  · intro exec ctx message oracle
    exact sendMessage_iterations_le exec ctx message oracle
  · decide

/-- C7: tool failure isolation.  (i) A registry tool call whose executor
throws `msg` is converted into the textual output
`Error executing tool: <msg>`: the batch caches that output, reports it
through `onToolResult` and ships it to the model, throwing nothing (the
batch outcome is fully determined).  (ii) Whenever the initial send
succeeds, `sendMessage` still resolves with some string, whatever the
executors do.  (iii) In the concrete run the executor throws in iteration
1, the converted result is reported, the loop continues and the turn
returns `done`. -/
theorem C7_tool_failure_isolation :
    (∀ (exec : AgentContext → String → String → Except String ToolOutput)
      (ctx : AgentContext) (cache : List (String × ToolOutput))
      (executed : List String) (c : FunctionCall) (msg : String),
      TOOL_REGISTRY_NAMES.contains c.name = true →
      exec ctx c.name c.args = .error msg →
      lookupA (cacheKeyOf c.name c.args) cache = none →
      processBatch exec ctx cache executed [c] =
        ⟨(cacheKeyOf c.name c.args, execErrorOutput msg) :: cache,
         addTool executed c.name,
         [Event.toolStart (resolveCallId c) c.name,
          Event.execInvoke c.name c.args,
          Event.toolResult (resolveCallId c) c.name c.args
            ("Error executing tool: " ++ msg) none,
          Event.frSent c.name (resolveCallId c)
            ("Error executing tool: " ++ msg) none]⟩) ∧
    (∀ (exec : AgentContext → String → String → Except String ToolOutput)
      (ctx : AgentContext) (message : List (Option String))
      (oracle : Nat → Except ApiError ModelResponse) (r0 : ModelResponse),
      oracle 0 = .ok r0 →
      ∃ s, (sendMessage exec ctx message oracle).result = .ok s) ∧
    ((sendMessage throwExec {} [some "hello"] oneCallOracle).result =
        Except.ok "done" ∧
      (sendMessage throwExec {} [some "hello"] oneCallOracle).iterations = 2 ∧
      Event.toolResult "id1" "searchWeb" dupArgs
          "Error executing tool: boom" none ∈
        (sendMessage throwExec {} [some "hello"] oneCallOracle).events) := by
  refine ⟨?_, ?_, by rfl, by decide, by decide⟩
  · intro exec ctx cache executed c msg hreg hexec hl
    exact processBatch_singleton_execError exec ctx cache executed c msg
      hreg hexec hl
  · intro exec ctx message oracle r0 h
    exact sendMessage_ok_result exec ctx message oracle r0 h

/-- C8: meta stripping.  (i) In every turn, every function-response
payload pushed back to the model carries no `meta` field.  (ii) For a
fresh successful registry call, the full output — `meta` included — is
what the cache stores and what `onToolResult` delivers, while the
function-response envelope carries the text only. -/
theorem C8_meta_stripping :
    (∀ (exec : AgentContext → String → String → Except String ToolOutput)
      (ctx : AgentContext) (message : List (Option String))
      (oracle : Nat → Except ApiError ModelResponse),
      ((sendMessage exec ctx message oracle).events).countP isBadFrSent = 0) ∧
    (∀ (exec : AgentContext → String → String → Except String ToolOutput)
      (ctx : AgentContext) (cache : List (String × ToolOutput))
      (executed : List String) (c : FunctionCall) (r : ToolOutput),
      TOOL_REGISTRY_NAMES.contains c.name = true →
      exec ctx c.name c.args = .ok r →
      lookupA (cacheKeyOf c.name c.args) cache = none →
      lookupA (cacheKeyOf c.name c.args)
          (processBatch exec ctx cache executed [c]).cache = some r ∧
      Event.toolResult (resolveCallId c) c.name c.args (resultOutput r)
          r.meta ∈ (processBatch exec ctx cache executed [c]).events ∧
      Event.frSent c.name (resolveCallId c) r.text none ∈
        (processBatch exec ctx cache executed [c]).events) := by
  constructor
  · intro exec ctx message oracle
    exact sendMessage_countP_zero exec ctx message oracle _
      (fun c2 e2 calls =>
        processBatch_countP_badFrSent_zero exec ctx c2 e2 calls)
      (fun t => rfl)
  · intro exec ctx cache executed c r hreg hexec hl
    rw [processBatch_singleton_ok exec ctx cache executed c r hreg hexec hl]
    refine ⟨?_, ?_, ?_⟩
    · simp [lookupA_cons]
    · simp
    · simp

/-- C9: the claim as stated is false: a call served from the turn cache
fires NO callback at all — `onToolResult` (lines 239-245) sits inside the
fresh-execution branch, so no fresh `onToolResult` keyed to the new call
id is delivered.  In the cross-iteration run the second call `id2` is
served from the cache: the executor runs once, the envelope for `id2` is
pushed to the model, but no `onToolResult` for `id2` ever fires. -/
theorem C9_counterexample :
    ((sendMessage okExec {} [some "hello"] crossIterOracle).events).countP
      (isToolResultForCall "id2") = 0 ∧
    Event.frSent "searchWeb" "id2" "R" none ∈
      (sendMessage okExec {} [some "hello"] crossIterOracle).events ∧
    ((sendMessage okExec {} [some "hello"] crossIterOracle).events).countP
      (isExecInvokeKey "searchWeb" dupArgs) = 1 := by
  refine ⟨by decide, by decide, by decide⟩

/-- C9 (amended): the callback protocol.  (i) A batch served entirely
from the cache fires neither `onToolStart` nor `onToolResult` — it only
pushes one function-response envelope per call, leaving the cache
unchanged.  (ii) In every turn, every `onToolResult` is preceded by an
`onToolStart` carrying the same call id. -/
theorem C9_callback_protocol_amended :
    (∀ (exec : AgentContext → String → String → Except String ToolOutput)
      (ctx : AgentContext) (cache : List (String × ToolOutput))
      (executed : List String) (calls : List FunctionCall),
      (∀ c ∈ calls, ¬(lookupA (cacheKeyOf c.name c.args) cache = none)) →
      ((processBatch exec ctx cache executed calls).events).countP
        isToolStartAny = 0 ∧
      ((processBatch exec ctx cache executed calls).events).countP
        isToolResultAny = 0 ∧
      ((processBatch exec ctx cache executed calls).events).countP
        isFrSentAny = calls.length ∧
      (processBatch exec ctx cache executed calls).cache = cache) ∧
    (∀ (exec : AgentContext → String → String → Except String ToolOutput)
      (ctx : AgentContext) (message : List (Option String))
      (oracle : Nat → Except ApiError ModelResponse),
      startBeforeResult []
        ((sendMessage exec ctx message oracle).events) = true) := by
  constructor
  · intro exec ctx cache executed calls hall
    exact processBatch_allhit exec ctx cache executed calls hall
  · intro exec ctx message oracle
    exact sendMessage_startBeforeResult exec ctx message oracle

/-- C10: the executed-tools bookkeeping.  (i) Every requested call adds
its tool name to the turn's executed set — for any executor behaviour
(including throwing ones), for unknown tools and for cache hits alike,
since `toolsExecuted.add(toolName)` (line 189) runs before the cache
check and the registry lookup.  (ii) The supervisor's missing-tool list
never contains a name already in the executed set.  (iii) Concretely: the
required `updateDraft` is requested in iteration 1 and its executor
throws, yet the turn completes normally with no supervisor intervention
and `updateDraft` counted as executed. -/
theorem C10_executed_added_unconditionally :
    (∀ (exec : AgentContext → String → String → Except String ToolOutput)
      (ctx : AgentContext) (cache : List (String × ToolOutput))
      (executed : List String) (calls : List FunctionCall)
      (c : FunctionCall), c ∈ calls →
      ((processBatch exec ctx cache executed calls).executed).contains
        c.name = true) ∧
    (∀ (required executed : List String) (t : String),
      t ∈ validMissingOf required executed →
      executed.contains t = false) ∧
    (((sendMessage throwExec ctxDraft [some "write"] draftOracle).events).countP
        isSupervisorAny = 0 ∧
      (sendMessage throwExec ctxDraft [some "write"] draftOracle).exitReason =
        ExitReason.completed ∧
      ((sendMessage throwExec ctxDraft [some "write"] draftOracle).executed).contains
        "updateDraft" = true) := by
  refine ⟨?_, ?_, by decide, by decide, by decide⟩
  · intro exec ctx cache executed calls c h
    exact processBatch_executed_mem exec ctx cache executed calls c h
  · intro required executed t h
    exact validMissing_not_executed required executed t h
